import Mathlib

/-!
Verification of the ledger/balance engine of the daakhpc/firstRepo school
record-keeper.  The TypeScript source (src/pages/Dashboard.tsx together with
the two type modules) is shallowly embedded: dates appear as natural-number
day indices (one day = +1, matching the ISO-string date arithmetic of the
source), currency amounts as rationals (JS numbers used as exact decimals),
and JS array sorts as stable comparison sorts (List.insertionSort).
-/

/-- Balance side used throughout the source: credit or debit. -/
inductive BalanceType where
  | credit
  | debit
deriving DecidableEq, Repr

/-- Signed value of an (amount, type) pair, credit positive, debit negative,
as the source computes with `type === 'credit' ? amount : -amount`. -/
def signedOf (amount : ℚ) (t : BalanceType) : ℚ :=
  match t with
  | .credit => amount
  | .debit => -amount

/-- Sum of `f` over a list, as the JS `reduce((sum, x) => sum + f(x), 0)`. -/
def sumBy (l : List α) (f : α → ℚ) : ℚ :=
  l.foldl (fun s x => s + f x) 0


namespace DayBook

/-- OpeningBalance record of the source (`id` is the date, here a day index). -/
structure OpeningBalance where
  id : ℕ
  amount : ℚ
  type : BalanceType
deriving DecidableEq, Repr

/-- FeePayment record (the fields the balance engine reads, plus the id the
cascade logic reads). -/
structure FeePayment where
  id : String
  paymentDate : ℕ
  amountPaid : ℚ
deriving DecidableEq, Repr

/-- IncomeEntry record of the day-book model. -/
structure IncomeEntry where
  id : String
  date : ℕ
  accountId : String
  amount : ℚ
  remarks : String
deriving DecidableEq, Repr

/-- Expenditure record of the day-book model. -/
structure Expenditure where
  id : String
  date : ℕ
  accountId : String
  amount : ℚ
  remarks : String
deriving DecidableEq, Repr

/-- The collections `calculateOpeningBalanceForDate` closes over. -/
structure State where
  openingBalances : List OpeningBalance
  feePayments : List FeePayment
  incomeEntries : List IncomeEntry
  expenditures : List Expenditure
deriving Repr

/-- Fee-payment income for one day:
`feePayments.filter(p => p.paymentDate === d).reduce((s, p) => s + p.amountPaid, 0)`. -/
def feeIncomeForDay (s : State) (d : ℕ) : ℚ :=
  sumBy (s.feePayments.filter (fun p => p.paymentDate = d)) (fun p => p.amountPaid)

/-- Other income for one day:
`incomeEntries.filter(i => i.date === d).reduce((s, i) => s + i.amount, 0)`. -/
def otherIncomeForDay (s : State) (d : ℕ) : ℚ :=
  sumBy (s.incomeEntries.filter (fun i => i.date = d)) (fun i => i.amount)

/-- `incomeForDay` as summed inside the replay loop of the source. -/
def incomeForDay (s : State) (d : ℕ) : ℚ :=
  feeIncomeForDay s d + otherIncomeForDay s d

/-- Expenditure for one day:
`expenditures.filter(e => e.date === d).reduce((s, e) => s + e.amount, 0)`. -/
def expenditureForDay (s : State) (d : ℕ) : ℚ :=
  sumBy (s.expenditures.filter (fun e => e.date = d)) (fun e => e.amount)

/-- Net movement of one day as added to `runningBalance` by the loop. -/
def netForDay (s : State) (d : ℕ) : ℚ :=
  incomeForDay s d - expenditureForDay s d

/-- The `while (currentDate < targetDate)` loop of
`calculateOpeningBalanceForDate`, with the remaining number of days
(`target - current`) as the recursion measure: add the day's net, step to the
next day, and reset to a user-defined balance for that next day when one
exists. -/
def replay (s : State) : ℕ → ℕ → ℚ → ℚ
  | _, 0, r => r
  | cur, n + 1, r =>
      let r1 := r + netForDay s cur
      let next := cur + 1
      replay s next n
        (match s.openingBalances.find? (fun ob => ob.id = next) with
         | some ob => signedOf ob.amount ob.type
         | none => r1)

/-- The union of all dates the source gathers into `allDates`, deduplicated
and sorted ascending (`[...new Set([...])].sort()`). -/
def allDates (s : State) : List ℕ :=
  ((s.openingBalances.map (fun ob => ob.id))
    ++ (s.feePayments.map (fun fp => fp.paymentDate))
    ++ (s.incomeEntries.map (fun ie => ie.date))
    ++ (s.expenditures.map (fun ex => ex.date))).dedup.insertionSort (· ≤ ·)

/-- The anchor search of the source: opening balances sorted by descending
date, then the first strictly before the target
(`sortedBalances.find(ob => new Date(ob.id) < new Date(dateStr))`). -/
def findStartingPoint (s : State) (target : ℕ) : Option OpeningBalance :=
  (s.openingBalances.insertionSort (fun a b => b.id ≤ a.id)).find?
    (fun ob => ob.id < target)

/-- Shallow embedding of `calculateOpeningBalanceForDate` (Dashboard.tsx):
return a stored override verbatim; otherwise derive the balance by replaying
from the nearest preceding override (or from the earliest known date with a
zero balance) up to the day before the target. -/
def calculateOpeningBalanceForDate (s : State) (target : ℕ) : ℚ × BalanceType :=
  match s.openingBalances.find? (fun ob => ob.id = target) with
  | some ob => (ob.amount, ob.type)
  | none =>
      match allDates s with
      | [] => (0, .credit)
      | d0 :: _ =>
          if target < d0 then (0, .credit)
          else
            let startPair : ℕ × ℚ :=
              match findStartingPoint s target with
              | some ob => (ob.id, signedOf ob.amount ob.type)
              | none => (d0, 0)
            let r := replay s startPair.1 (target - startPair.1) startPair.2
            (|r|, if 0 ≤ r then .credit else .debit)

/-- The signed value of the computed opening balance, as the day-book view
forms `openingBalanceAmount`. -/
def signedOpeningBalance (s : State) (target : ℕ) : ℚ :=
  signedOf (calculateOpeningBalanceForDate s target).1
    (calculateOpeningBalanceForDate s target).2

/-- Day-book totals `totalIncome` / `totalExpenditure` for the selected date
and the closing balance `openingBalanceAmount + totalIncome - totalExpenditure`. -/
def closingBalance (s : State) (d : ℕ) : ℚ :=
  signedOpeningBalance s d + (feeIncomeForDay s d + otherIncomeForDay s d)
    - expenditureForDay s d

/-- Shallow embedding of `handleSaveOpeningBalance`: drop any stored override
for the selected date, then append the form value when its amount is
positive. -/
def handleSaveOpeningBalance (obs : List OpeningBalance) (selectedDate : ℕ)
    (formAmount : ℚ) (formType : BalanceType) : List OpeningBalance :=
  let updatedBalances := obs.filter (fun ob => ¬ ob.id = selectedDate)
  if 0 < formAmount then
    updatedBalances ++ [{ id := selectedDate, amount := formAmount, type := formType }]
  else
    updatedBalances

/-- All transaction dates of the store (fee payments, income entries,
expenditures), as the spec speaks of "the earliest transaction". -/
def transactionDates (s : State) : List ℕ :=
  s.feePayments.map (fun fp => fp.paymentDate)
    ++ s.incomeEntries.map (fun ie => ie.date)
    ++ s.expenditures.map (fun ex => ex.date)

/-- The date of the earliest transaction, when any exists. -/
def earliestTransactionDate (s : State) : Option ℕ :=
  ((transactionDates s).dedup.insertionSort (· ≤ ·)).head?

/-- The spec's anchor (step 2 of the derivation): the nearest override with
date strictly before the target. -/
def specAnchor (s : State) (target : ℕ) : Option OpeningBalance :=
  (s.openingBalances.filter (fun ob => ob.id < target)).argmax (fun ob => ob.id)

/-- The opening-balance derivation in the words of the specification (§4.4):
an override for the target wins verbatim; otherwise the signed running
balance starts from the nearest earlier override, or from zero at the
earliest transaction date (zero at the target itself when there is no
transaction history), and is replayed day by day — overrides on intermediate
days resetting it — up to the day before the target. -/
def openingBalanceSpec (s : State) (target : ℕ) : ℚ × BalanceType :=
  match s.openingBalances.find? (fun ob => ob.id = target) with
  | some ob => (ob.amount, ob.type)
  | none =>
      let startPair : ℕ × ℚ :=
        match specAnchor s target with
        | some ob => (ob.id, signedOf ob.amount ob.type)
        | none =>
            match earliestTransactionDate s with
            | some t0 => (t0, 0)
            | none => (target, 0)
      let r := replay s startPair.1 (target - startPair.1) startPair.2
      (|r|, if 0 ≤ r then .credit else .debit)

instance : IsTotal OpeningBalance (fun a b => b.id ≤ a.id) :=
  ⟨fun a b => le_total b.id a.id⟩

instance : IsTrans OpeningBalance (fun a b => b.id ≤ a.id) :=
  ⟨fun _ _ _ hab hbc => le_trans hbc hab⟩

end DayBook

namespace Accounting

/-- Account of the accounting module (the fields the reports read). -/
structure Account where
  id : String
  name : String
  group : String
  openingBalance : ℚ
  openingBalanceType : BalanceType
deriving DecidableEq, Repr

/-- One voucher line (`Transaction` in the source). -/
structure Transaction where
  accountId : String
  type : BalanceType
  amount : ℚ
deriving DecidableEq, Repr

/-- JournalEntry of the source; `voucherNumber` is a JS number, embedded as a
rational, and `relatedFeePaymentId` an optional link to a fee payment. -/
structure JournalEntry where
  id : String
  date : ℕ
  voucherNumber : ℚ
  narration : String
  transactions : List Transaction
  relatedFeePaymentId : Option String
deriving DecidableEq, Repr

/-- Signed amount of a voucher line, debit positive, as the reports use
(`t.type === 'debit' ? t.amount : -t.amount`). -/
def lineSigned (t : Transaction) : ℚ :=
  match t.type with
  | .debit => t.amount
  | .credit => -t.amount

/-- Signed fixed opening balance of an account, debit positive
(`acc.openingBalanceType === 'debit' ? acc.openingBalance : -acc.openingBalance`). -/
def accountOpeningSigned (a : Account) : ℚ :=
  match a.openingBalanceType with
  | .debit => a.openingBalance
  | .credit => -a.openingBalance

/-- Shallow embedding of `handleSaveNewJournalEntry`: compute
`journalEntries.reduce((max, je) => Math.max(max, je.voucherNumber), 0)`,
assign that plus one, and append. -/
def nextVoucherNumber (js : List JournalEntry) : ℚ :=
  js.foldl (fun m je => max m je.voucherNumber) 0

/-- Data of a new voucher before the id / voucher number are assigned. -/
structure NewEntry where
  date : ℕ
  narration : String
  transactions : List Transaction
  relatedFeePaymentId : Option String
deriving Repr

/-- The journal after `handleSaveNewJournalEntry` appends the new entry with
the next voucher number (the generated id is irrelevant to the claims and is
taken as a parameter). -/
def handleSaveNewJournalEntry (js : List JournalEntry) (entry : NewEntry)
    (newId : String) : List JournalEntry :=
  js ++ [{ id := newId, date := entry.date,
           voucherNumber := nextVoucherNumber js + 1,
           narration := entry.narration,
           transactions := entry.transactions,
           relatedFeePaymentId := entry.relatedFeePaymentId }]

/-! ### Voucher modal (`handleSave` of VoucherFormModal) -/

/-- One editable row of the voucher form: the account id (empty string when
unresolved) and the parsed debit / credit fields. `none` stands for a field
whose `parseFloat` is NaN (empty or malformed text); `parseFloat(x) || 0`
turns it into 0. -/
structure VoucherRow where
  accountId : String
  debit : Option ℚ
  credit : Option ℚ
deriving Repr

/-- The `parseFloat(t.debit) || 0` coercion. -/
def parseOr0 (o : Option ℚ) : ℚ := o.getD 0

/-- `totalDebit` of the modal: sum of the parsed debit fields over all rows. -/
def totalDebit (rows : List VoucherRow) : ℚ :=
  sumBy rows (fun t => parseOr0 t.debit)

/-- `totalCredit` of the modal: sum of the parsed credit fields over all rows. -/
def totalCredit (rows : List VoucherRow) : ℚ :=
  sumBy rows (fun t => parseOr0 t.credit)

/-- The `finalTransactions` mapping of `handleSave`: drop rows with no
account id or with both parsed amounts zero, and tag the rest debit when the
parsed debit is positive, credit otherwise. -/
def finalTransactions (rows : List VoucherRow) : List Transaction :=
  rows.filterMap (fun t =>
    if t.accountId = "" ∨ (parseOr0 t.debit = 0 ∧ parseOr0 t.credit = 0) then none
    else some { accountId := t.accountId,
                type := if 0 < parseOr0 t.debit then .debit else .credit,
                amount := if 0 < parseOr0 t.debit then parseOr0 t.debit
                          else parseOr0 t.credit })

/-- Shallow embedding of the voucher modal's `handleSave`: `none` when an
alert rejects the voucher, otherwise the stored transaction lines. -/
def handleSaveVoucher (rows : List VoucherRow) : Option (List Transaction) :=
  if 1 / 100 < |totalDebit rows - totalCredit rows| ∨ totalDebit rows = 0 then
    none
  else
    let fin := finalTransactions rows
    if fin.length < 2 then none else some fin

/-- The journal store after a voucher-modal save: unchanged on rejection,
otherwise extended through `handleSaveNewJournalEntry`. -/
def voucherSaveJournal (js : List JournalEntry) (rows : List VoucherRow)
    (date : ℕ) (narration : String) (newId : String) : List JournalEntry :=
  match handleSaveVoucher rows with
  | none => js
  | some fin =>
      handleSaveNewJournalEntry js
        { date := date, narration := narration, transactions := fin,
          relatedFeePaymentId := none } newId

/-- Sum of the stored debit-line amounts of a line list. -/
def storedDebitTotal (ts : List Transaction) : ℚ :=
  sumBy (ts.filter (fun t => t.type = .debit)) (fun t => t.amount)

/-- Sum of the stored credit-line amounts of a line list. -/
def storedCreditTotal (ts : List Transaction) : ℚ :=
  sumBy (ts.filter (fun t => t.type = .credit)) (fun t => t.amount)

/-! ### Ledger report (`ledgerReportData`) -/

/-- One rendered row of the ledger report. `date` is `none` for the synthetic
opening row (the source uses the string literal instead of a date there),
`balance` is debit-positive as accumulated by the source. -/
structure LedgerRow where
  date : Option ℕ
  narration : String
  debit : ℚ
  credit : ℚ
  balance : ℚ
deriving DecidableEq, Repr

/-- Rows contributed by one journal entry: its lines, in stored order,
restricted to the selected account, each moving the running balance. -/
def ledgerRowsOfEntry (accountId : String) (je : JournalEntry) (balance : ℚ) :
    List LedgerRow × ℚ :=
  je.transactions.foldl
    (fun (acc : List LedgerRow × ℚ) t =>
      if t.accountId = accountId then
        let b := acc.2 + lineSigned t
        (acc.1 ++ [{ date := some je.date, narration := je.narration,
                     debit := match t.type with | .debit => t.amount | .credit => 0,
                     credit := match t.type with | .credit => t.amount | .debit => 0,
                     balance := b }], b)
      else acc)
    ([], balance)

/-- The date-window filter and two-key sort the report applies to the journal
(`date` ascending, then `voucherNumber` ascending). -/
def ledgerEntriesInRange (js : List JournalEntry) (startDate endDate : ℕ) :
    List JournalEntry :=
  (js.filter (fun je => startDate ≤ je.date ∧ je.date ≤ endDate)).insertionSort
    (fun a b => a.date < b.date ∨ (a.date = b.date ∧ a.voucherNumber ≤ b.voucherNumber))

/-- Shallow embedding of `ledgerReportData` for a resolved account: the
optional opening row, then one row per matching voucher line, plus the final
running balance. -/
def ledgerReportData (js : List JournalEntry) (acc : Account)
    (startDate endDate : ℕ) : List LedgerRow × ℚ :=
  let openingBal := accountOpeningSigned acc
  let openingRows : List LedgerRow :=
    if 0 < acc.openingBalance then
      [{ date := none, narration := "Opening Balance",
         debit := match acc.openingBalanceType with | .debit => acc.openingBalance | .credit => 0,
         credit := match acc.openingBalanceType with | .credit => acc.openingBalance | .debit => 0,
         balance := openingBal }]
    else []
  (ledgerEntriesInRange js startDate endDate).foldl
    (fun (st : List LedgerRow × ℚ) je =>
      let step := ledgerRowsOfEntry acc.id je st.2
      (st.1 ++ step.1, step.2))
    (openingRows, openingBal)

/-- How the UI renders a running balance: absolute value with a Dr/Cr tag
(`formatCurrency(Math.abs(balance))` and `balance >= 0 ? 'Dr' : 'Cr'`). -/
def renderBalance (b : ℚ) : ℚ × BalanceType :=
  (|b|, if 0 ≤ b then .debit else .credit)

/-! ### Trial balance (`trialBalanceData`) -/

/-- One slot of the `balances` record: account name, group and a running
signed balance (debit positive). -/
structure BalanceSlot where
  name : String
  group : String
  balance : ℚ
deriving DecidableEq, Repr

/-- The record build-up `balances[acc.id] = {...}`: replace the value when
the key is already present (JS keeps the original key position), append
otherwise. -/
def insertSlot (m : List (String × BalanceSlot)) (k : String) (v : BalanceSlot) :
    List (String × BalanceSlot) :=
  if m.any (fun p => p.1 = k) then
    m.map (fun p => if p.1 = k then (k, v) else p)
  else m ++ [(k, v)]

/-- The in-place update `balances[t.accountId].balance += amount`, a no-op
when the key is absent (the source guards with `if (balances[t.accountId])`). -/
def bumpSlot (m : List (String × BalanceSlot)) (k : String) (amt : ℚ) :
    List (String × BalanceSlot) :=
  m.map (fun p => if p.1 = k then (p.1, { p.2 with balance := p.2.balance + amt }) else p)

/-- Shallow embedding of the `balances` record of `trialBalanceData` after
both passes: seed one slot per account from its fixed opening balance, then
add the signed amount of every voucher line whose account has a slot. -/
def trialBalances (accounts : List Account) (js : List JournalEntry) :
    List (String × BalanceSlot) :=
  let seeded := accounts.foldl
    (fun m acc => insertSlot m acc.id
      { name := acc.name, group := acc.group, balance := accountOpeningSigned acc })
    []
  js.foldl
    (fun m je => je.transactions.foldl
      (fun m t => bumpSlot m t.accountId (lineSigned t)) m)
    seeded

/-- `Object.values(balances)` sorted by account name. -/
def sortedBalances (accounts : List Account) (js : List JournalEntry) :
    List BalanceSlot :=
  ((trialBalances accounts js).map (fun p => p.2)).insertionSort
    (fun a b => a.name ≤ b.name)

/-- `totalDebits`: sum of the positive balances. -/
def totalDebits (accounts : List Account) (js : List JournalEntry) : ℚ :=
  sumBy (sortedBalances accounts js) (fun acc => if 0 < acc.balance then acc.balance else 0)

/-- `totalCredits`: sum of the absolute values of the negative balances. -/
def totalCredits (accounts : List Account) (js : List JournalEntry) : ℚ :=
  sumBy (sortedBalances accounts js) (fun acc => if acc.balance < 0 then -acc.balance else 0)

/-- The mismatch banner of the trial-balance view: shown exactly when
`Math.abs(totalDebits - totalCredits) > 0.01`. -/
def trialBalanceWarningShown (accounts : List Account) (js : List JournalEntry) : Prop :=
  1 / 100 < |totalDebits accounts js - totalCredits accounts js|

instance (accounts : List Account) (js : List JournalEntry) :
    Decidable (trialBalanceWarningShown accounts js) := by
  unfold trialBalanceWarningShown; infer_instance

/-- A voucher whose stored debit lines and credit lines sum to the same
total. -/
def balancedEntry (je : JournalEntry) : Prop :=
  storedDebitTotal je.transactions = storedCreditTotal je.transactions

/-! ### Fee-payment cascade (`handleSaveFeePayments`) and delete gating -/

/-- Shallow embedding of `handleSaveFeePayments` restricted to the stores it
touches: the new payment collection replaces the old one, and when it is
strictly shorter the journal is purged of entries linked to the removed
payment ids. -/
def handleSaveFeePayments (old : List DayBook.FeePayment)
    (js : List JournalEntry) (data : List DayBook.FeePayment) :
    List DayBook.FeePayment × List JournalEntry :=
  if data.length < old.length then
    let deletedPaymentIds :=
      (old.filter (fun p => ¬ data.any (fun dp => dp.id = p.id))).map (fun p => p.id)
    (data, js.filter (fun je =>
      match je.relatedFeePaymentId with
      | none => true
      | some r => decide (¬ r ∈ deletedPaymentIds)))
  else (data, js)

/-- The `disabled` condition of the payment delete button:
`journalEntries.some(je => je.relatedFeePaymentId === p.id)`. -/
def paymentDeleteDisabled (js : List JournalEntry) (paymentId : String) : Bool :=
  js.any (fun je => je.relatedFeePaymentId = some paymentId)

end Accounting

namespace Categories

/-- AccountCategory of the day-book chart of accounts. -/
structure AccountCategory where
  id : String
  name : String
  isSystem : Bool
deriving DecidableEq, Repr

/-- Account of the day-book chart of accounts (the fields read by the
category-deletion and import logic). -/
structure Account where
  id : String
  name : String
  categoryId : String
  isStudentAccount : Bool
deriving DecidableEq, Repr

/-- Shallow embedding of `handleDeleteCategory` (with the confirmation dialog
answered yes): `none` when the in-use alert blocks the deletion, otherwise
the filtered category collection. -/
def handleDeleteCategory (accounts : List Account)
    (categories : List AccountCategory) (catId : String) :
    Option (List AccountCategory) :=
  if accounts.any (fun acc => acc.categoryId = catId) then none
  else some (categories.filter (fun c => ¬ c.id = catId))

end Categories

namespace Import

open Categories

/-- One spreadsheet row as the import loop reads it: the trimmed account
name (empty when the cell is absent or blank), the raw date cell, the parsed
debit / credit cells (`none` models a NaN parse; an absent cell parses to 0
through `row["Debit"] || 0`), and the narration. -/
structure Row where
  accountName : String
  dateStr : String
  debit : Option ℚ
  credit : Option ℚ
  narration : String
deriving Repr

/-- JS `x === 0` on a parse result (false for NaN). -/
def jsEq0 (o : Option ℚ) : Prop := o = some 0

instance (o : Option ℚ) : Decidable (jsEq0 o) := by unfold jsEq0; infer_instance

/-- JS `x > 0` on a parse result (false for NaN). -/
def jsGt0 (o : Option ℚ) : Prop := ∃ q, o = some q ∧ 0 < q

instance (o : Option ℚ) : Decidable (jsGt0 o) := by
  unfold jsGt0
  match o with
  | none => exact .isFalse (by simp)
  | some q => exact decidable_of_iff (0 < q) (by simp)

/-- Character-level splitting on a separator, the structural counterpart of
the JS `split(sep)` for a one-character separator (the empty string splits
to one empty field). -/
def splitChars (sep : Char) : List Char → List (List Char)
  | [] => [[]]
  | c :: cs =>
      let r := splitChars sep cs
      if c = sep then [] :: r
      else
        match r with
        | [] => [[c]]
        | h :: t => (c :: h) :: t

/-- `split('/')` over a string, via its character list. -/
def splitOnSlash (s : String) : List String :=
  (splitChars (Char.ofNat 47) s.data).map (fun l => String.mk l)

/-- Case folding as the source uses `toLowerCase()` on both sides of the
account-name comparison. -/
def lowerStr (s : String) : String :=
  String.mk (s.data.map Char.toLower)

/-- Shallow embedding of `parseDateFromDDMMYYYY`: empty result for invalid
input, otherwise the `YYYY-MM-DD` rearrangement after the shape checks
(three `/`-separated parts of widths 2, 2 and 4). -/
def parseDateFromDDMMYYYY (s : String) : String :=
  if s = "" then ""
  else
    match splitOnSlash s with
    | [day, month, year] =>
        if day.length = 2 ∧ month.length = 2 ∧ year.length = 4 then
          year ++ "-" ++ month ++ "-" ++ day
        else ""
    | _ => ""

/-- Expenditure as appended by the import (string date, as stored). -/
structure ImpExpenditure where
  id : String
  date : String
  accountId : String
  amount : ℚ
  remarks : String
deriving DecidableEq, Repr

/-- IncomeEntry as appended by the import (string date, as stored). -/
structure ImpIncome where
  id : String
  date : String
  accountId : String
  amount : ℚ
  remarks : String
deriving DecidableEq, Repr

/-- The temporary collections the import loop mutates, plus a counter
standing in for `generateId()` (each generated id is fresh). -/
structure ImportState where
  importedCategoryId : String
  accounts : List Account
  expenditures : List ImpExpenditure
  incomes : List ImpIncome
  nextId : ℕ
deriving DecidableEq, Repr

/-- The fresh id `generateId()` yields at counter value `n`. -/
def genId (n : ℕ) : String := "gen-" ++ toString n

/-- The account lookup of the import loop: case-insensitive name match over
the temporary account list, creating (and appending) a fresh account under
the imported category on a miss. -/
def resolveAccount (st : ImportState) (name : String) : Account × ImportState :=
  match st.accounts.find? (fun a => lowerStr a.name = lowerStr name) with
  | some a => (a, st)
  | none =>
      let a : Account := { id := genId st.nextId, name := name,
                           categoryId := st.importedCategoryId,
                           isStudentAccount := false }
      (a, { st with accounts := st.accounts ++ [a], nextId := st.nextId + 1 })

/-- One iteration of the import loop over a row: the skip checks in source
order (missing name / both parsed amounts zero, then date shape), the
account resolution by case-insensitive name with creation on miss, and the
append of an expenditure when the parsed debit is positive, else of an
income entry when the parsed credit is positive. -/
def importRow (st : ImportState) (row : Row) : ImportState :=
  if row.accountName = "" ∨ (jsEq0 row.debit ∧ jsEq0 row.credit) then st
  else
    if parseDateFromDDMMYYYY row.dateStr = "" then st
    else
      let res := resolveAccount st row.accountName
      if jsGt0 row.debit then
        { res.2 with
          expenditures := res.2.expenditures ++
            [{ id := genId res.2.nextId, date := parseDateFromDDMMYYYY row.dateStr,
               accountId := res.1.id, amount := (row.debit.getD 0),
               remarks := row.narration }],
          nextId := res.2.nextId + 1 }
      else if jsGt0 row.credit then
        { res.2 with
          incomes := res.2.incomes ++
            [{ id := genId res.2.nextId, date := parseDateFromDDMMYYYY row.dateStr,
               accountId := res.1.id, amount := (row.credit.getD 0),
               remarks := row.narration }],
          nextId := res.2.nextId + 1 }
      else res.2

end Import

theorem sumBy_nil (f : α → ℚ) : sumBy [] f = 0 := rfl

theorem foldl_add_init (l : List α) (f : α → ℚ) (a : ℚ) :
    l.foldl (fun s x => s + f x) a = a + l.foldl (fun s x => s + f x) 0 := by
  induction l generalizing a with
  | nil => simp [List.foldl]
  | cons y ys ih =>
      simp only [List.foldl]
      rw [ih (a + f y), ih (0 + f y)]
      ring

theorem sumBy_cons (x : α) (l : List α) (f : α → ℚ) :
    sumBy (x :: l) f = f x + sumBy l f := by
  simp only [sumBy, List.foldl]
  rw [foldl_add_init]
  ring_nf

theorem sumBy_append (l₁ l₂ : List α) (f : α → ℚ) :
    sumBy (l₁ ++ l₂) f = sumBy l₁ f + sumBy l₂ f := by
  induction l₁ with
  | nil => simp [sumBy_nil, sumBy]
  | cons x xs ih => simp [sumBy_cons, ih]; ring

theorem sumBy_perm {l₁ l₂ : List α} (h : l₁.Perm l₂) (f : α → ℚ) :
    sumBy l₁ f = sumBy l₂ f := by
  induction h with
  | nil => rfl
  | cons x _ ih => simp [sumBy_cons, ih]
  | swap x y l => simp [sumBy_cons]; ring
  | trans _ _ ih₁ ih₂ => exact ih₁.trans ih₂

namespace Accounting

theorem le_foldl_max (js : List JournalEntry) (a : ℚ) :
    a ≤ js.foldl (fun m je => max m je.voucherNumber) a := by
  induction js generalizing a with
  | nil => exact le_refl a
  | cons y ys ih => exact le_trans (le_max_left a y.voucherNumber) (ih _)

theorem mem_le_foldl_max {js : List JournalEntry} {je : JournalEntry}
    (h : je ∈ js) (a : ℚ) :
    je.voucherNumber ≤ js.foldl (fun m x => max m x.voucherNumber) a := by
  induction js generalizing a with
  | nil => cases h
  | cons y ys ih =>
      rcases List.mem_cons.mp h with rfl | hmem
      · exact le_trans (le_max_right a je.voucherNumber) (le_foldl_max ys _)
      · exact ih hmem _

theorem mem_lt_nextVoucherNumber {js : List JournalEntry} {je : JournalEntry}
    (h : je ∈ js) : je.voucherNumber < nextVoucherNumber js + 1 :=
  lt_of_le_of_lt (mem_le_foldl_max h 0) (lt_add_one _)

end Accounting

/-- C7: every newly posted voucher gets voucherNumber `1 + max existing`
(`0` as the maximum on an empty ledger), assigned on append; it therefore
exceeds every stored voucher number, so numbers stay unique across the
ledger and strictly increase in posting order. -/
theorem c7_voucher_numbering :
    Accounting.nextVoucherNumber [] = 0 ∧
    ∀ (js : List Accounting.JournalEntry) (e : Accounting.NewEntry) (newId : String),
      Accounting.handleSaveNewJournalEntry js e newId =
        js ++ [{ id := newId, date := e.date,
                 voucherNumber := Accounting.nextVoucherNumber js + 1,
                 narration := e.narration, transactions := e.transactions,
                 relatedFeePaymentId := e.relatedFeePaymentId }] ∧
      (∀ je ∈ js, je.voucherNumber < Accounting.nextVoucherNumber js + 1) ∧
      ((js.map (fun je => je.voucherNumber)).Nodup →
        ((Accounting.handleSaveNewJournalEntry js e newId).map
          (fun je => je.voucherNumber)).Nodup) := by
  refine ⟨rfl, fun js e newId => ⟨rfl, fun je h => Accounting.mem_lt_nextVoucherNumber h, ?_⟩⟩
  intro hnd
  unfold Accounting.handleSaveNewJournalEntry
  rw [List.map_append, List.nodup_append]
  refine ⟨hnd, by simp, ?_⟩
  intro x hx hx2
  simp only [List.map_cons, List.map_nil, List.mem_singleton] at hx2
  subst hx2
  rcases List.mem_map.mp hx with ⟨je, hje, hfe⟩
  exact absurd hfe (ne_of_lt (Accounting.mem_lt_nextVoucherNumber hje))

/-- C7 witness: on a two-entry ledger with numbers 1 and 2 the next voucher
is numbered 3, exceeds the stored numbers, and uniqueness is preserved. -/
theorem c7_voucher_numbering_witness :
    ∃ (js : List Accounting.JournalEntry) (e : Accounting.NewEntry),
      (js.map (fun je => je.voucherNumber)).Nodup ∧
      ((Accounting.handleSaveNewJournalEntry js e "n3").map
        (fun je => je.voucherNumber)).Nodup ∧
      Accounting.nextVoucherNumber js + 1 = 3 := by
  refine ⟨[{ id := "n1", date := 1, voucherNumber := 1, narration := "a",
             transactions := [], relatedFeePaymentId := none },
           { id := "n2", date := 2, voucherNumber := 2, narration := "b",
             transactions := [], relatedFeePaymentId := none }],
          { date := 3, narration := "c", transactions := [],
            relatedFeePaymentId := none }, by decide, ?_, ?_⟩
  · exact (c7_voucher_numbering.2 _ _ "n3").2.2 (by decide)
  · show max (max 0 1) 2 + 1 = (3 : ℚ)
    norm_num

namespace Categories

theorem remove_one_length (catId : String) :
    ∀ (l : List AccountCategory), (l.map (fun c => c.id)).Nodup →
      ∀ c ∈ l, c.id = catId →
        (l.filter (fun c => ¬ c.id = catId)).length + 1 = l.length := by
  intro l
  induction l with
  | nil => intro _ c hc; cases hc
  | cons a tl ih =>
      intro hnd c hc hcid
      rw [List.map_cons, List.nodup_cons] at hnd
      rcases List.mem_cons.mp hc with rfl | hmem
      · simp only [List.filter_cons, hcid, List.length_cons]
        simp only [decide_not]
        simp
        intro x hx hxid
        exact hnd.1 (List.mem_map.mpr ⟨x, hx, by rw [hxid, hcid]⟩)
      · have haid : ¬ a.id = catId := by
          intro ha
          exact hnd.1 (List.mem_map.mpr ⟨c, hmem, by rw [hcid, ha]⟩)
        have ihr := ih hnd.2 c hmem hcid
        simp only [List.filter_cons, haid, List.length_cons]
        simp only [decide_eq_true_eq] at ihr ⊢
        simp [haid] at ihr ⊢
        omega

end Categories

/-- C9: `handleDeleteCategory` is blocked (store untouched) exactly when some
account references the category; otherwise it succeeds and removes exactly
the categories carrying that id — with unique ids, exactly one entry. -/
theorem c9_delete_category :
    ∀ (accounts : List Categories.Account)
      (categories : List Categories.AccountCategory) (catId : String),
      ((∃ acc ∈ accounts, acc.categoryId = catId) →
        Categories.handleDeleteCategory accounts categories catId = none) ∧
      ((¬ ∃ acc ∈ accounts, acc.categoryId = catId) →
        ∃ l, Categories.handleDeleteCategory accounts categories catId = some l ∧
          (∀ c, c ∈ l ↔ c ∈ categories ∧ ¬ c.id = catId) ∧
          ((categories.map (fun c => c.id)).Nodup →
            ∀ c ∈ categories, c.id = catId → l.length + 1 = categories.length)) := by
  intro accounts categories catId
  constructor
  · intro ⟨acc, hacc, hid⟩
    unfold Categories.handleDeleteCategory
    rw [if_pos]
    exact List.any_eq_true.mpr ⟨acc, hacc, by simp [hid]⟩
  · intro hnone
    refine ⟨categories.filter (fun c => ¬ c.id = catId), ?_, ?_, ?_⟩
    · unfold Categories.handleDeleteCategory
      rw [if_neg]
      simp only [List.any_eq_true, decide_eq_true_eq]
      exact fun ⟨acc, hacc, hid⟩ => hnone ⟨acc, hacc, hid⟩
    · intro c; simp
    · exact Categories.remove_one_length catId categories

/-- C9 witness: with one account referencing category X, deleting X is
refused, while deleting the unreferenced category Y succeeds and removes
exactly one of the two stored categories. -/
theorem c9_delete_category_witness :
    Categories.handleDeleteCategory
      [{ id := "a1", name := "A", categoryId := "X", isStudentAccount := false }]
      [{ id := "X", name := "x", isSystem := false },
       { id := "Y", name := "y", isSystem := false }] "X" = none ∧
    ∃ l, Categories.handleDeleteCategory
      [{ id := "a1", name := "A", categoryId := "X", isStudentAccount := false }]
      [{ id := "X", name := "x", isSystem := false },
       { id := "Y", name := "y", isSystem := false }] "Y" = some l ∧
      l.length + 1 = 2 := by
  constructor
  · exact (c9_delete_category _ _ "X").1 ⟨_, List.mem_singleton.mpr rfl, rfl⟩
  · rcases (c9_delete_category
      [{ id := "a1", name := "A", categoryId := "X", isStudentAccount := false }]
      [{ id := "X", name := "x", isSystem := false },
       { id := "Y", name := "y", isSystem := false }] "Y").2 (by decide) with
      ⟨l, hl, _, hlen⟩
    exact ⟨l, hl, hlen (by decide) { id := "Y", name := "y", isSystem := false }
      (by decide) rfl⟩

/-- C10: after `handleSaveOpeningBalance`, the store holds the submitted
override as its only entry for the selected date when the amount is
positive, holds no entry for that date otherwise, and overrides for every
other date are untouched. -/
theorem c10_save_opening_balance :
    ∀ (obs : List DayBook.OpeningBalance) (d : ℕ) (amt : ℚ) (ty : BalanceType),
      ((DayBook.handleSaveOpeningBalance obs d amt ty).filter (fun ob => ob.id = d) =
        if 0 < amt then [{ id := d, amount := amt, type := ty }] else []) ∧
      (∀ ob : DayBook.OpeningBalance, ¬ ob.id = d →
        (ob ∈ DayBook.handleSaveOpeningBalance obs d amt ty ↔ ob ∈ obs)) := by
  intro obs d amt ty
  constructor
  · by_cases hpos : 0 < amt
    · simp only [DayBook.handleSaveOpeningBalance, hpos, if_true]
      rw [List.filter_append]
      have h1 : (obs.filter (fun ob => decide (¬ ob.id = d))).filter
          (fun ob => decide (ob.id = d)) = [] := by
        apply List.filter_eq_nil_iff.mpr
        intro ob hob
        have := (List.mem_filter.mp hob).2
        simpa using this
      rw [h1]
      simp
    · simp only [DayBook.handleSaveOpeningBalance, hpos, if_false]
      apply List.filter_eq_nil_iff.mpr
      intro ob hob
      have := (List.mem_filter.mp hob).2
      simpa using this
  · intro ob hob
    by_cases hpos : 0 < amt
    · simp only [DayBook.handleSaveOpeningBalance, hpos, if_true, List.mem_append,
        List.mem_filter, List.mem_singleton]
      constructor
      · rintro ((⟨h1, _⟩) | h2)
        · exact h1
        · exact absurd (congrArg DayBook.OpeningBalance.id h2) (by simpa using hob)
      · intro h1
        exact Or.inl ⟨h1, by simpa using hob⟩
    · simp only [DayBook.handleSaveOpeningBalance, hpos, if_false, List.mem_filter]
      constructor
      · rintro ⟨h1, _⟩
        exact h1
      · intro h1
        exact ⟨h1, by simpa using hob⟩

/-- C10 witness: saving amount 3 for date 2 replaces the stored override for
date 2 and keeps the one for date 1; saving amount 0 removes it instead. -/
theorem c10_save_opening_balance_witness :
    ((DayBook.handleSaveOpeningBalance
        [{ id := 1, amount := 5, type := .credit }, { id := 2, amount := 7, type := .debit }]
        2 3 .credit).filter (fun ob => ob.id = 2) =
      [{ id := 2, amount := 3, type := .credit }]) ∧
    (({ id := 1, amount := 5, type := .credit } : DayBook.OpeningBalance) ∈
      DayBook.handleSaveOpeningBalance
        [{ id := 1, amount := 5, type := .credit }, { id := 2, amount := 7, type := .debit }]
        2 3 .credit ↔
      ({ id := 1, amount := 5, type := .credit } : DayBook.OpeningBalance) ∈
        [({ id := 1, amount := 5, type := .credit } : DayBook.OpeningBalance),
         { id := 2, amount := 7, type := .debit }]) ∧
    ((DayBook.handleSaveOpeningBalance
        [{ id := 1, amount := 5, type := .credit }, { id := 2, amount := 7, type := .debit }]
        2 0 .credit).filter (fun ob => ob.id = 2) = []) := by
  refine ⟨?_, ?_, ?_⟩
  · have h := (c10_save_opening_balance
      [{ id := 1, amount := 5, type := .credit }, { id := 2, amount := 7, type := .debit }]
      2 3 .credit).1
    rw [h, if_pos (by norm_num)]
  · exact (c10_save_opening_balance
      [{ id := 1, amount := 5, type := .credit }, { id := 2, amount := 7, type := .debit }]
      2 3 .credit).2 _ (by decide)
  · have h := (c10_save_opening_balance
      [{ id := 1, amount := 5, type := .credit }, { id := 2, amount := 7, type := .debit }]
      2 0 .credit).1
    rw [h, if_neg (by norm_num)]

/-- C2 counterexample: the modal balances the *entered* rows before dropping
lines, so a balanced sheet containing one line without a resolved account
(and two negative-amount lines) is admitted, yet the stored lines are
unbalanced (debit total 0 against credit total 50) and contain non-positive
amounts. -/
theorem c2_counterexample :
    Accounting.handleSaveVoucher
      [{ accountId := "", debit := some 100, credit := none },
       { accountId := "A", debit := none, credit := some 100 },
       { accountId := "B", debit := some (-50), credit := none },
       { accountId := "C", debit := none, credit := some (-50) }] =
      some [{ accountId := "A", type := .credit, amount := 100 },
            { accountId := "B", type := .credit, amount := 0 },
            { accountId := "C", type := .credit, amount := -50 }] ∧
    Accounting.storedDebitTotal
      [{ accountId := "A", type := .credit, amount := 100 },
       { accountId := "B", type := .credit, amount := 0 },
       { accountId := "C", type := .credit, amount := -50 }] = 0 ∧
    Accounting.storedCreditTotal
      [{ accountId := "A", type := .credit, amount := 100 },
       { accountId := "B", type := .credit, amount := 0 },
       { accountId := "C", type := .credit, amount := -50 }] = 50 ∧
    ¬ (∀ t ∈ [({ accountId := "A", type := .credit, amount := 100 } : Accounting.Transaction),
              { accountId := "B", type := .credit, amount := 0 },
              { accountId := "C", type := .credit, amount := -50 }], 0 < t.amount) := by
  refine ⟨?_, ?_, ?_, ?_⟩
  · unfold Accounting.handleSaveVoucher
    rw [if_neg]
    · simp +decide [Accounting.finalTransactions, Accounting.parseOr0]
    · push_neg
      constructor
      · norm_num [Accounting.totalDebit, Accounting.totalCredit, Accounting.parseOr0,
          sumBy, List.foldl]
      · norm_num [Accounting.totalDebit, Accounting.parseOr0, sumBy, List.foldl]
  · norm_num [Accounting.storedDebitTotal, sumBy, List.filter, List.foldl]
  · norm_num [Accounting.storedCreditTotal, sumBy, List.filter, List.foldl]
  · intro h
    have := h { accountId := "C", type := .credit, amount := -50 } (by simp)
    norm_num at this

namespace Accounting

theorem mem_finalTransactions_accountId {rows : List VoucherRow}
    {t : Transaction} (h : t ∈ finalTransactions rows) : ¬ t.accountId = "" := by
  unfold finalTransactions at h
  rcases List.mem_filterMap.mp h with ⟨row, _, hrow⟩
  by_cases hg : row.accountId = "" ∨ (parseOr0 row.debit = 0 ∧ parseOr0 row.credit = 0)
  · rw [if_pos hg] at hrow
    cases hrow
  · rw [if_neg hg] at hrow
    push_neg at hg
    cases hrow
    exact hg.1

end Accounting

/-- C2 (amended): the modal balances the rows as entered — admission requires
the entered debit total to be within 0.01 of the entered credit total and
non-zero — and only then drops lines without a resolved account or with both
parsed amounts zero; at least two lines must survive.  Stored lines all carry
a resolved account, and the stored voucher is appended unchanged, while any
rejection leaves the journal untouched.  (Stored totals can therefore differ
from the entered totals, as the counterexample shows.) -/
theorem c2_voucher_admission :
    ∀ (rows : List Accounting.VoucherRow) (js : List Accounting.JournalEntry)
      (d : ℕ) (narr newId : String),
      (Accounting.handleSaveVoucher rows = none →
        Accounting.voucherSaveJournal js rows d narr newId = js) ∧
      (∀ fin, Accounting.handleSaveVoucher rows = some fin →
        |Accounting.totalDebit rows - Accounting.totalCredit rows| ≤ 1 / 100 ∧
        ¬ Accounting.totalDebit rows = 0 ∧
        fin = Accounting.finalTransactions rows ∧
        2 ≤ fin.length ∧
        (∀ t ∈ fin, ¬ t.accountId = "") ∧
        Accounting.voucherSaveJournal js rows d narr newId =
          js ++ [{ id := newId, date := d,
                   voucherNumber := Accounting.nextVoucherNumber js + 1,
                   narration := narr, transactions := fin,
                   relatedFeePaymentId := none }]) := by
  intro rows js d narr newId
  constructor
  · intro hnone
    unfold Accounting.voucherSaveJournal
    rw [hnone]
  · intro fin hsome
    unfold Accounting.handleSaveVoucher at hsome
    by_cases hrej : 1 / 100 < |Accounting.totalDebit rows - Accounting.totalCredit rows| ∨
        Accounting.totalDebit rows = 0
    · rw [if_pos hrej] at hsome; cases hsome
    · rw [if_neg hrej] at hsome
      push_neg at hrej
      by_cases hlen : (Accounting.finalTransactions rows).length < 2
      · rw [if_pos hlen] at hsome; cases hsome
      · rw [if_neg hlen] at hsome
        have hfin : fin = Accounting.finalTransactions rows :=
          (Option.some.injEq _ _).mp hsome.symm
        refine ⟨hrej.1, hrej.2, hfin, ?_, ?_, ?_⟩
        · rw [hfin]; omega
        · intro t ht
          exact Accounting.mem_finalTransactions_accountId (hfin ▸ ht)
        · have hsv : Accounting.handleSaveVoucher rows = some fin := by
            unfold Accounting.handleSaveVoucher
            rw [if_neg (by push_neg; exact hrej), if_neg hlen, hfin]
          unfold Accounting.voucherSaveJournal
          rw [hsv]
          rfl

/-- C2 witness: the empty sheet is rejected with the journal unchanged, and a
balanced two-line voucher (debit A 100 / credit B 100) is admitted and
appended with all stored lines carrying resolved accounts. -/
theorem c2_voucher_admission_witness :
    Accounting.voucherSaveJournal [] [] 5 "n" "j0" = [] ∧
    (∀ t ∈ Accounting.finalTransactions
        [{ accountId := "A", debit := some 100, credit := none },
         { accountId := "B", debit := none, credit := some 100 }], ¬ t.accountId = "") ∧
    Accounting.voucherSaveJournal []
      [{ accountId := "A", debit := some 100, credit := none },
       { accountId := "B", debit := none, credit := some 100 }] 5 "n" "j1" =
      [{ id := "j1", date := 5, voucherNumber := Accounting.nextVoucherNumber [] + 1,
         narration := "n",
         transactions := Accounting.finalTransactions
           [{ accountId := "A", debit := some 100, credit := none },
            { accountId := "B", debit := none, credit := some 100 }],
         relatedFeePaymentId := none }] := by
  have hnone : Accounting.handleSaveVoucher [] = none := by
    unfold Accounting.handleSaveVoucher
    rw [if_pos]
    right
    rfl
  have hsome : Accounting.handleSaveVoucher
      [{ accountId := "A", debit := some 100, credit := none },
       { accountId := "B", debit := none, credit := some 100 }] =
      some (Accounting.finalTransactions
        [{ accountId := "A", debit := some 100, credit := none },
         { accountId := "B", debit := none, credit := some 100 }]) := by
    unfold Accounting.handleSaveVoucher
    rw [if_neg, if_neg]
    · apply Nat.not_lt.mpr
      show 2 ≤ (Accounting.finalTransactions _).length
      simp +decide [Accounting.finalTransactions, Accounting.parseOr0]
    · push_neg
      constructor
      · norm_num [Accounting.totalDebit, Accounting.totalCredit, Accounting.parseOr0,
          sumBy, List.foldl]
      · norm_num [Accounting.totalDebit, Accounting.parseOr0, sumBy, List.foldl]
  have happ := (c2_voucher_admission
    [{ accountId := "A", debit := some 100, credit := none },
     { accountId := "B", debit := none, credit := some 100 }] [] 5 "n" "j1").2 _ hsome
  exact ⟨(c2_voucher_admission [] [] 5 "n" "j0").1 hnone,
    fun t ht => happ.2.2.2.2.1 t ht, happ.2.2.2.2.2⟩

namespace Accounting

theorem mem_deletedPaymentIds (old data : List DayBook.FeePayment) (r : String) :
    r ∈ (old.filter (fun p => ¬ data.any (fun dp => dp.id = p.id))).map
      (fun p => p.id) ↔
    ∃ p ∈ old, p.id = r ∧ ∀ dp ∈ data, ¬ dp.id = r := by
  simp only [List.mem_map, List.mem_filter, decide_not, Bool.not_eq_true,
    List.any_eq_false, decide_eq_false_iff_not]
  constructor
  · rintro ⟨p, ⟨hp, hall⟩, rfl⟩
    exact ⟨p, hp, rfl, of_decide_eq_true hall⟩
  · rintro ⟨p, hp, rfl, hall⟩
    exact ⟨p, ⟨hp, decide_eq_true hall⟩, rfl⟩

theorem mem_cascade_filter {js : List JournalEntry} {dl : List String}
    {je : JournalEntry} :
    je ∈ js.filter (fun je =>
      match je.relatedFeePaymentId with
      | none => true
      | some r => decide (¬ r ∈ dl)) ↔
    je ∈ js ∧ ∀ r, je.relatedFeePaymentId = some r → ¬ r ∈ dl := by
  rw [List.mem_filter]
  cases hrel : je.relatedFeePaymentId with
  | none => simp [hrel]
  | some r => simp [hrel]

end Accounting

/-- C6 counterexample: saving the fee payments with payment p1 replaced by a
new payment p2 removes p1, but because the collection length is unchanged the
cascade does not run and the journal entry linked to p1 survives. -/
theorem c6_counterexample :
    Accounting.handleSaveFeePayments
      [{ id := "p1", paymentDate := 1, amountPaid := 100 }]
      [{ id := "j1", date := 1, voucherNumber := 1, narration := "fee",
         transactions := [], relatedFeePaymentId := some "p1" }]
      [{ id := "p2", paymentDate := 2, amountPaid := 50 }] =
      ([{ id := "p2", paymentDate := 2, amountPaid := 50 }],
       [{ id := "j1", date := 1, voucherNumber := 1, narration := "fee",
          transactions := [], relatedFeePaymentId := some "p1" }]) ∧
    ¬ (∃ dp ∈ [({ id := "p2", paymentDate := 2, amountPaid := 50 } :
          DayBook.FeePayment)], dp.id = "p1") := by
  constructor
  · unfold Accounting.handleSaveFeePayments
    rw [if_neg (by decide)]
  · decide

/-- C6 (amended): the cascade runs only when the saved collection is strictly
shorter than the stored one; it then removes exactly the journal entries
linked to a removed payment id and keeps all others.  In every save, an entry
that is unlinked or linked to a payment still present in the saved collection
is retained — a linked voucher is never removed separately from its payment —
and the fee-payment UI disables the payment delete button precisely while a
linked journal entry exists (no direct journal-entry deletion is offered). -/
theorem c6_fee_payment_cascade :
    ∀ (old : List DayBook.FeePayment) (js : List Accounting.JournalEntry)
      (data : List DayBook.FeePayment),
      (data.length < old.length →
        (Accounting.handleSaveFeePayments old js data).1 = data ∧
        ∀ je ∈ js,
          (je ∈ (Accounting.handleSaveFeePayments old js data).2 ↔
            ∀ r, je.relatedFeePaymentId = some r →
              ¬ ∃ p ∈ old, p.id = r ∧ ∀ dp ∈ data, ¬ dp.id = r)) ∧
      (¬ data.length < old.length →
        Accounting.handleSaveFeePayments old js data = (data, js)) ∧
      (∀ je ∈ js,
        (je.relatedFeePaymentId = none ∨
          ∃ r, je.relatedFeePaymentId = some r ∧ ∃ dp ∈ data, dp.id = r) →
        je ∈ (Accounting.handleSaveFeePayments old js data).2) ∧
      (∀ pid, Accounting.paymentDeleteDisabled js pid = true ↔
        ∃ je ∈ js, je.relatedFeePaymentId = some pid) := by
  intro old js data
  refine ⟨?_, ?_, ?_, ?_⟩
  · intro hlen
    unfold Accounting.handleSaveFeePayments
    rw [if_pos hlen]
    refine ⟨rfl, ?_⟩
    intro je hje
    rw [Accounting.mem_cascade_filter]
    constructor
    · rintro ⟨_, hkeep⟩ r hr
      have := hkeep r hr
      rw [Accounting.mem_deletedPaymentIds] at this
      exact this
    · intro hkeep
      refine ⟨hje, ?_⟩
      intro r hr
      rw [Accounting.mem_deletedPaymentIds]
      exact hkeep r hr
  · intro hlen
    unfold Accounting.handleSaveFeePayments
    rw [if_neg hlen]
  · intro je hje hcase
    unfold Accounting.handleSaveFeePayments
    by_cases hlen : data.length < old.length
    · rw [if_pos hlen]
      rw [Accounting.mem_cascade_filter]
      refine ⟨hje, ?_⟩
      intro r hr
      rw [Accounting.mem_deletedPaymentIds]
      rintro ⟨p, _, hpid, hnone⟩
      rcases hcase with hno | ⟨r2, hr2, dp, hdp, hdpid⟩
      · rw [hno] at hr; cases hr
      · rw [hr2] at hr
        cases hr
        exact hnone dp hdp hdpid
    · rw [if_neg hlen]
      exact hje
  · intro pid
    unfold Accounting.paymentDeleteDisabled
    simp only [List.any_eq_true, decide_eq_true_eq]

/-- C6 witness: dropping p1 from a two-payment collection (a strictly shorter
save) deletes the voucher linked to p1 and keeps the one linked to the
surviving p2, whose delete button is disabled while that link exists. -/
theorem c6_fee_payment_cascade_witness :
    (Accounting.handleSaveFeePayments
      [{ id := "p1", paymentDate := 1, amountPaid := 100 },
       { id := "p2", paymentDate := 2, amountPaid := 50 }]
      [{ id := "j1", date := 1, voucherNumber := 1, narration := "fee1",
         transactions := [], relatedFeePaymentId := some "p1" },
       { id := "j2", date := 2, voucherNumber := 2, narration := "fee2",
         transactions := [], relatedFeePaymentId := some "p2" }]
      [{ id := "p2", paymentDate := 2, amountPaid := 50 }]).1 =
      [{ id := "p2", paymentDate := 2, amountPaid := 50 }] ∧
    ({ id := "j1", date := 1, voucherNumber := 1, narration := "fee1",
       transactions := [], relatedFeePaymentId := some "p1" } :
        Accounting.JournalEntry) ∉
      (Accounting.handleSaveFeePayments
        [{ id := "p1", paymentDate := 1, amountPaid := 100 },
         { id := "p2", paymentDate := 2, amountPaid := 50 }]
        [{ id := "j1", date := 1, voucherNumber := 1, narration := "fee1",
           transactions := [], relatedFeePaymentId := some "p1" },
         { id := "j2", date := 2, voucherNumber := 2, narration := "fee2",
           transactions := [], relatedFeePaymentId := some "p2" }]
        [{ id := "p2", paymentDate := 2, amountPaid := 50 }]).2 ∧
    ({ id := "j2", date := 2, voucherNumber := 2, narration := "fee2",
       transactions := [], relatedFeePaymentId := some "p2" } :
        Accounting.JournalEntry) ∈
      (Accounting.handleSaveFeePayments
        [{ id := "p1", paymentDate := 1, amountPaid := 100 },
         { id := "p2", paymentDate := 2, amountPaid := 50 }]
        [{ id := "j1", date := 1, voucherNumber := 1, narration := "fee1",
           transactions := [], relatedFeePaymentId := some "p1" },
         { id := "j2", date := 2, voucherNumber := 2, narration := "fee2",
           transactions := [], relatedFeePaymentId := some "p2" }]
        [{ id := "p2", paymentDate := 2, amountPaid := 50 }]).2 ∧
    Accounting.paymentDeleteDisabled
      [{ id := "j1", date := 1, voucherNumber := 1, narration := "fee1",
         transactions := [], relatedFeePaymentId := some "p1" },
       { id := "j2", date := 2, voucherNumber := 2, narration := "fee2",
         transactions := [], relatedFeePaymentId := some "p2" }] "p2" = true := by
  have hc := c6_fee_payment_cascade
    [{ id := "p1", paymentDate := 1, amountPaid := 100 },
     { id := "p2", paymentDate := 2, amountPaid := 50 }]
    [{ id := "j1", date := 1, voucherNumber := 1, narration := "fee1",
       transactions := [], relatedFeePaymentId := some "p1" },
     { id := "j2", date := 2, voucherNumber := 2, narration := "fee2",
       transactions := [], relatedFeePaymentId := some "p2" }]
    [{ id := "p2", paymentDate := 2, amountPaid := 50 }]
  have hlen : ([({ id := "p2", paymentDate := 2, amountPaid := 50 } :
      DayBook.FeePayment)]).length <
      ([({ id := "p1", paymentDate := 1, amountPaid := 100 } : DayBook.FeePayment),
        { id := "p2", paymentDate := 2, amountPaid := 50 }]).length := by decide
  refine ⟨(hc.1 hlen).1, ?_, ?_, ?_⟩
  · intro hmem
    have hiff := ((hc.1 hlen).2
      { id := "j1", date := 1, voucherNumber := 1, narration := "fee1",
        transactions := [], relatedFeePaymentId := some "p1" }
      (by simp)).mp hmem "p1" rfl
    exact hiff ⟨{ id := "p1", paymentDate := 1, amountPaid := 100 }, by simp, rfl,
      by decide⟩
  · exact hc.2.2.1
      { id := "j2", date := 2, voucherNumber := 2, narration := "fee2",
        transactions := [], relatedFeePaymentId := some "p2" }
      (by simp)
      (Or.inr ⟨"p2", rfl, { id := "p2", paymentDate := 2, amountPaid := 50 },
        by simp, rfl⟩)
  · exact (hc.2.2.2 "p2").mpr
      ⟨{ id := "j2", date := 2, voucherNumber := 2, narration := "fee2",
         transactions := [], relatedFeePaymentId := some "p2" }, by simp, rfl⟩

namespace Import

theorem resolveAccount_state (st : ImportState) (name : String) :
    ((∃ a ∈ st.accounts, lowerStr a.name = lowerStr name) →
      (resolveAccount st name).2 = st) ∧
    ((¬ ∃ a ∈ st.accounts, lowerStr a.name = lowerStr name) →
      (resolveAccount st name).2 =
        { st with
          accounts := st.accounts ++
            [{ id := genId st.nextId, name := name,
               categoryId := st.importedCategoryId, isStudentAccount := false }],
          nextId := st.nextId + 1 }) := by
  constructor
  · rintro ⟨a, ha, hn⟩
    unfold resolveAccount
    cases hfind : st.accounts.find? (fun a => lowerStr a.name = lowerStr name) with
    | some b => rfl
    | none =>
        rw [List.find?_eq_none] at hfind
        exact absurd (by simpa using hn) (by simpa using hfind a ha)
  · intro hnone
    unfold resolveAccount
    cases hfind : st.accounts.find? (fun a => lowerStr a.name = lowerStr name) with
    | some b =>
        have hb := List.find?_some hfind
        have hbm := List.mem_of_find?_eq_some hfind
        exact absurd ⟨b, hbm, by simpa using hb⟩ hnone
    | none => rfl

end Import

/-- C8 counterexample: a row with a valid DD/MM/YYYY date and both debit (5)
and credit (7) positive is not skipped — the import creates the account and
appends an Expenditure of the debit amount. -/
theorem c8_counterexample :
    Import.importRow
      { importedCategoryId := "imp", accounts := [], expenditures := [],
        incomes := [], nextId := 0 }
      { accountName := "X", dateStr := "05/01/2024", debit := some 5,
        credit := some 7, narration := "n" } =
      { importedCategoryId := "imp",
        accounts := [{ id := Import.genId 0, name := "X", categoryId := "imp",
                       isStudentAccount := false }],
        expenditures := [{ id := Import.genId 1, date := "2024-01-05",
                           accountId := Import.genId 0, amount := 5,
                           remarks := "n" }],
        incomes := [], nextId := 2 } ∧
    Import.jsGt0 (some (5 : ℚ)) ∧ Import.jsGt0 (some (7 : ℚ)) := by
  refine ⟨by decide, ?_, ?_⟩
  · exact ⟨5, rfl, by norm_num⟩
  · exact ⟨7, rfl, by norm_num⟩

/-- C8 (amended): a row is skipped (state unchanged, import continues) when
the account name is blank, when both parsed amount cells are zero, or when
the date fails the DD/MM/YYYY shape check; otherwise the account is resolved
case-insensitively by name (created under the imported category on a miss)
and then exactly one record is appended when a parsed amount is positive —
an Expenditure of the debit amount whenever debit > 0, even if credit is
also set, else an IncomeEntry of the credit amount — while a row whose
parsed amounts are both non-positive (e.g. negative or NaN) appends nothing
though the account may still be created. -/
theorem c8_import_row :
    ∀ (st : Import.ImportState) (row : Import.Row),
      ((row.accountName = "" ∨ (Import.jsEq0 row.debit ∧ Import.jsEq0 row.credit)) →
        Import.importRow st row = st) ∧
      (Import.parseDateFromDDMMYYYY row.dateStr = "" →
        Import.importRow st row = st) ∧
      (¬ (row.accountName = "" ∨ (Import.jsEq0 row.debit ∧ Import.jsEq0 row.credit)) →
       ¬ Import.parseDateFromDDMMYYYY row.dateStr = "" →
        (Import.jsGt0 row.debit →
          (Import.importRow st row).expenditures =
            (Import.resolveAccount st row.accountName).2.expenditures ++
              [{ id := Import.genId (Import.resolveAccount st row.accountName).2.nextId,
                 date := Import.parseDateFromDDMMYYYY row.dateStr,
                 accountId := (Import.resolveAccount st row.accountName).1.id,
                 amount := row.debit.getD 0, remarks := row.narration }] ∧
          (Import.importRow st row).incomes = st.incomes) ∧
        (¬ Import.jsGt0 row.debit → Import.jsGt0 row.credit →
          (Import.importRow st row).incomes =
            (Import.resolveAccount st row.accountName).2.incomes ++
              [{ id := Import.genId (Import.resolveAccount st row.accountName).2.nextId,
                 date := Import.parseDateFromDDMMYYYY row.dateStr,
                 accountId := (Import.resolveAccount st row.accountName).1.id,
                 amount := row.credit.getD 0, remarks := row.narration }] ∧
          (Import.importRow st row).expenditures = st.expenditures) ∧
        (¬ Import.jsGt0 row.debit → ¬ Import.jsGt0 row.credit →
          (Import.importRow st row).expenditures = st.expenditures ∧
          (Import.importRow st row).incomes = st.incomes) ∧
        ((∃ a ∈ st.accounts, Import.lowerStr a.name = Import.lowerStr row.accountName) →
          (Import.importRow st row).accounts = st.accounts) ∧
        ((¬ ∃ a ∈ st.accounts, Import.lowerStr a.name = Import.lowerStr row.accountName) →
          (Import.importRow st row).accounts = st.accounts ++
            [{ id := Import.genId st.nextId, name := row.accountName,
               categoryId := st.importedCategoryId,
               isStudentAccount := false }])) := by
  intro st row
  have hres2exp : (Import.resolveAccount st row.accountName).2.expenditures =
      st.expenditures := by
    unfold Import.resolveAccount
    cases st.accounts.find? (fun a => Import.lowerStr a.name = Import.lowerStr row.accountName) with
    | some a => rfl
    | none => rfl
  have hres2inc : (Import.resolveAccount st row.accountName).2.incomes =
      st.incomes := by
    unfold Import.resolveAccount
    cases st.accounts.find? (fun a => Import.lowerStr a.name = Import.lowerStr row.accountName) with
    | some a => rfl
    | none => rfl
  refine ⟨?_, ?_, ?_⟩
  · intro hskip
    unfold Import.importRow
    rw [if_pos hskip]
  · intro hdate
    unfold Import.importRow
    by_cases hskip : row.accountName = "" ∨ (Import.jsEq0 row.debit ∧ Import.jsEq0 row.credit)
    · rw [if_pos hskip]
    · rw [if_neg hskip, if_pos hdate]
  · intro hskip hdate
    refine ⟨?_, ?_, ?_, ?_, ?_⟩
    · intro hd
      unfold Import.importRow
      rw [if_neg hskip, if_neg hdate, if_pos hd]
      exact ⟨rfl, hres2inc⟩
    · intro hnd hcred
      unfold Import.importRow
      rw [if_neg hskip, if_neg hdate, if_neg hnd, if_pos hcred]
      exact ⟨rfl, hres2exp⟩
    · intro hnd hnc
      unfold Import.importRow
      rw [if_neg hskip, if_neg hdate, if_neg hnd, if_neg hnc]
      exact ⟨hres2exp, hres2inc⟩
    · intro hex
      unfold Import.importRow
      rw [if_neg hskip, if_neg hdate]
      have hst := (Import.resolveAccount_state st row.accountName).1 hex
      by_cases hd : Import.jsGt0 row.debit
      · rw [if_pos hd]
        show (Import.resolveAccount st row.accountName).2.accounts = st.accounts
        rw [hst]
      · rw [if_neg hd]
        by_cases hc : Import.jsGt0 row.credit
        · rw [if_pos hc]
          show (Import.resolveAccount st row.accountName).2.accounts = st.accounts
          rw [hst]
        · rw [if_neg hc]
          rw [hst]
    · intro hnex
      unfold Import.importRow
      rw [if_neg hskip, if_neg hdate]
      have hst := (Import.resolveAccount_state st row.accountName).2 hnex
      by_cases hd : Import.jsGt0 row.debit
      · rw [if_pos hd]
        show (Import.resolveAccount st row.accountName).2.accounts = _
        rw [hst]
      · rw [if_neg hd]
        by_cases hc : Import.jsGt0 row.credit
        · rw [if_pos hc]
          show (Import.resolveAccount st row.accountName).2.accounts = _
          rw [hst]
        · rw [if_neg hc]
          rw [hst]

/-- C8 witness: a blank account name or a date failing the shape check leaves
the state untouched, while a credit-only row appends exactly one income
entry of the credit amount against the newly created account. -/
theorem c8_import_row_witness :
    Import.importRow
      { importedCategoryId := "imp", accounts := [], expenditures := [],
        incomes := [], nextId := 0 }
      { accountName := "", dateStr := "05/01/2024", debit := some 5,
        credit := none, narration := "n" } =
      { importedCategoryId := "imp", accounts := [], expenditures := [],
        incomes := [], nextId := 0 } ∧
    Import.importRow
      { importedCategoryId := "imp", accounts := [], expenditures := [],
        incomes := [], nextId := 0 }
      { accountName := "X", dateStr := "2024-01-05", debit := some 5,
        credit := none, narration := "n" } =
      { importedCategoryId := "imp", accounts := [], expenditures := [],
        incomes := [], nextId := 0 } ∧
    (Import.importRow
      { importedCategoryId := "imp", accounts := [], expenditures := [],
        incomes := [], nextId := 0 }
      { accountName := "X", dateStr := "05/01/2024", debit := none,
        credit := some 7, narration := "n" }).incomes =
      [{ id := Import.genId 1, date := "2024-01-05", accountId := Import.genId 0,
         amount := 7, remarks := "n" }] := by
  refine ⟨?_, ?_, ?_⟩
  · exact (c8_import_row
      { importedCategoryId := "imp", accounts := [], expenditures := [],
        incomes := [], nextId := 0 }
      { accountName := "", dateStr := "05/01/2024", debit := some 5,
        credit := none, narration := "n" }).1 (Or.inl rfl)
  · exact (c8_import_row
      { importedCategoryId := "imp", accounts := [], expenditures := [],
        incomes := [], nextId := 0 }
      { accountName := "X", dateStr := "2024-01-05", debit := some 5,
        credit := none, narration := "n" }).2.1 (by decide)
  · have h := ((c8_import_row
      { importedCategoryId := "imp", accounts := [], expenditures := [],
        incomes := [], nextId := 0 }
      { accountName := "X", dateStr := "05/01/2024", debit := none,
        credit := some 7, narration := "n" }).2.2
      (by decide) (by decide)).2.1 (by decide) ⟨7, rfl, by norm_num⟩
    rw [h.1]
    decide

theorem sumBy_map (l : List α) (g : α → β) (f : β → ℚ) :
    sumBy (l.map g) f = sumBy l (fun x => f (g x)) := by
  induction l with
  | nil => rfl
  | cons x xs ih => simp [sumBy_cons, ih]

namespace Accounting

theorem sumBy_pos_sub_neg (l : List BalanceSlot) :
    sumBy l (fun a => if 0 < a.balance then a.balance else 0) -
      sumBy l (fun a => if a.balance < 0 then -a.balance else 0) =
      sumBy l (fun a => a.balance) := by
  induction l with
  | nil => simp [sumBy_nil]
  | cons x xs ih =>
      simp only [sumBy_cons]
      rcases lt_trichotomy x.balance 0 with h | h | h
      · rw [if_neg (by linarith), if_pos h]
        linarith
      · rw [if_neg (by linarith), if_neg (by linarith)]
        linarith
      · rw [if_pos h, if_neg (by linarith)]
        linarith

theorem keys_bumpSlot (m : List (String × BalanceSlot)) (k : String) (amt : ℚ) :
    (bumpSlot m k amt).map Prod.fst = m.map Prod.fst := by
  unfold bumpSlot
  rw [List.map_map]
  apply List.map_congr_left
  intro p _
  by_cases h : p.1 = k
  · simp [h]
  · simp [h]

theorem bumpSlot_notmem {m : List (String × BalanceSlot)} {k : String}
    (amt : ℚ) (h : ¬ k ∈ m.map Prod.fst) : bumpSlot m k amt = m := by
  unfold bumpSlot
  conv_rhs => rw [show m = m.map id from (List.map_id m).symm]
  apply List.map_congr_left
  intro p hp
  have : ¬ p.1 = k := by
    intro hk
    exact h (hk ▸ List.mem_map_of_mem Prod.fst hp)
  rw [if_neg this]
  rfl

theorem bumpSlot_sum {m : List (String × BalanceSlot)} {k : String}
    (amt : ℚ) (hnd : (m.map Prod.fst).Nodup) (hk : k ∈ m.map Prod.fst) :
    sumBy (bumpSlot m k amt) (fun p => p.2.balance) =
      sumBy m (fun p => p.2.balance) + amt := by
  induction m with
  | nil => cases hk
  | cons p ps ih =>
      rw [List.map_cons, List.nodup_cons] at hnd
      have hstep : bumpSlot (p :: ps) k amt =
          (if p.1 = k then (p.1, { p.2 with balance := p.2.balance + amt }) else p) ::
            bumpSlot ps k amt := rfl
      rw [hstep]
      by_cases h : p.1 = k
      · rw [if_pos h, bumpSlot_notmem amt (h ▸ hnd.1), sumBy_cons, sumBy_cons]
        show p.2.balance + amt + sumBy ps (fun q => q.2.balance) =
          p.2.balance + sumBy ps (fun q => q.2.balance) + amt
        ring
      · rw [if_neg h]
        have hmem : k ∈ ps.map Prod.fst := by
          rcases List.mem_cons.mp hk with hk1 | hk2
          · exact absurd hk1.symm h
          · exact hk2
        rw [sumBy_cons, sumBy_cons, ih hnd.2 hmem]
        ring

theorem keys_fold_bump (ts : List Transaction) :
    ∀ (m : List (String × BalanceSlot)),
      ((ts.foldl (fun m t => bumpSlot m t.accountId (lineSigned t)) m).map Prod.fst) =
        m.map Prod.fst := by
  induction ts with
  | nil => intro m; rfl
  | cons t ts ih =>
      intro m
      simp only [List.foldl]
      rw [ih, keys_bumpSlot]

theorem fold_bump_sum (ts : List Transaction) :
    ∀ (m : List (String × BalanceSlot)),
      (m.map Prod.fst).Nodup →
      (∀ t ∈ ts, t.accountId ∈ m.map Prod.fst) →
      sumBy (ts.foldl (fun m t => bumpSlot m t.accountId (lineSigned t)) m)
          (fun p => p.2.balance) =
        sumBy m (fun p => p.2.balance) + sumBy ts lineSigned := by
  induction ts with
  | nil => intro m _ _; simp [sumBy_nil]
  | cons t ts ih =>
      intro m hnd hres
      simp only [List.foldl]
      rw [ih _ ?_ ?_, bumpSlot_sum (lineSigned t) hnd (hres t (List.mem_cons_self t ts)),
        sumBy_cons]
      · ring
      · rw [keys_bumpSlot]
        exact hnd
      · intro u hu
        rw [keys_bumpSlot]
        exact hres u (List.mem_cons_of_mem t hu)

theorem entries_fold_sum (js : List JournalEntry) :
    ∀ (m : List (String × BalanceSlot)),
      (m.map Prod.fst).Nodup →
      (∀ je ∈ js, ∀ t ∈ je.transactions, t.accountId ∈ m.map Prod.fst) →
      sumBy (js.foldl (fun m je => je.transactions.foldl
          (fun m t => bumpSlot m t.accountId (lineSigned t)) m) m)
          (fun p => p.2.balance) =
        sumBy m (fun p => p.2.balance) +
          sumBy js (fun je => sumBy je.transactions lineSigned) := by
  induction js with
  | nil => intro m _ _; simp [sumBy_nil]
  | cons je js ih =>
      intro m hnd hres
      simp only [List.foldl]
      rw [ih _ ?_ ?_, fold_bump_sum _ _ hnd (hres je (List.mem_cons_self je js)),
        sumBy_cons]
      · ring
      · rw [keys_fold_bump]
        exact hnd
      · intro je2 hje2 t ht
        rw [keys_fold_bump]
        exact hres je2 (List.mem_cons_of_mem je hje2) t ht

theorem sumBy_lineSigned (ts : List Transaction) :
    sumBy ts lineSigned = storedDebitTotal ts - storedCreditTotal ts := by
  induction ts with
  | nil => simp [sumBy_nil, storedDebitTotal, storedCreditTotal]
  | cons t ts ih =>
      unfold storedDebitTotal storedCreditTotal at ih ⊢
      cases htype : t.type with
      | debit =>
          rw [sumBy_cons, List.filter_cons_of_pos (by simp [htype]),
            List.filter_cons_of_neg (by simp [htype]), sumBy_cons, ih]
          unfold lineSigned
          rw [htype]
          ring
      | credit =>
          rw [sumBy_cons, List.filter_cons_of_neg (by simp [htype]),
            List.filter_cons_of_pos (by simp [htype]), sumBy_cons, ih]
          unfold lineSigned
          rw [htype]
          ring

end Accounting

theorem sumBy_eq_zero {l : List α} {f : α → ℚ} (h : ∀ x ∈ l, f x = 0) :
    sumBy l f = 0 := by
  induction l with
  | nil => rfl
  | cons x xs ih =>
      rw [sumBy_cons, h x (List.mem_cons_self x xs),
        ih (fun y hy => h y (List.mem_cons_of_mem x hy))]
      ring

namespace Accounting

theorem seed_eq (accounts : List Account) :
    ∀ (init : List (String × BalanceSlot)),
      (∀ a ∈ accounts, ¬ a.id ∈ init.map Prod.fst) →
      ((accounts.map (fun a => a.id)).Nodup) →
      accounts.foldl (fun m acc => insertSlot m acc.id
        { name := acc.name, group := acc.group,
          balance := accountOpeningSigned acc }) init =
      init ++ accounts.map (fun acc => (acc.id,
        ({ name := acc.name, group := acc.group,
           balance := accountOpeningSigned acc } : BalanceSlot))) := by
  induction accounts with
  | nil => intro init _ _; simp
  | cons a as ih =>
      intro init hdisj hnd
      rw [List.map_cons, List.nodup_cons] at hnd
      simp only [List.foldl, List.map_cons]
      have hins : insertSlot init a.id ⟨a.name, a.group, accountOpeningSigned a⟩ =
          init ++ [(a.id, ⟨a.name, a.group, accountOpeningSigned a⟩)] := by
        unfold insertSlot
        rw [if_neg]
        intro hany
        rcases List.any_eq_true.mp hany with ⟨p, hp, hpk⟩
        exact hdisj a (List.mem_cons_self a as)
          (List.mem_map.mpr ⟨p, hp, by simpa using hpk⟩)
      rw [hins, ih _ ?_ hnd.2, List.append_assoc]
      · rfl
      · intro b hb
        rw [List.map_append]
        intro hmem
        rcases List.mem_append.mp hmem with h1 | h2
        · exact hdisj b (List.mem_cons_of_mem a hb) h1
        · simp only [List.map_cons, List.map_nil, List.mem_singleton] at h2
          exact hnd.1 (h2 ▸ List.mem_map.mpr ⟨b, hb, rfl⟩)

theorem trialBalances_eq {accounts : List Account} (js : List JournalEntry)
    (hnd : (accounts.map (fun a => a.id)).Nodup) :
    trialBalances accounts js =
      js.foldl (fun m je => je.transactions.foldl
        (fun m t => bumpSlot m t.accountId (lineSigned t)) m)
        (accounts.map (fun acc => (acc.id,
          ({ name := acc.name, group := acc.group,
             balance := accountOpeningSigned acc } : BalanceSlot)))) := by
  unfold trialBalances
  rw [seed_eq accounts [] (by simp) hnd]
  rfl

end Accounting

/-- C3 counterexample: a ledger with one account whose fixed opening balance
is 0.005 credit and no journal entries (so every entry is vacuously balanced)
has totalDebits = 0 and totalCredits = 0.005: the totals differ, and the
non-zero difference is below the 0.01 display threshold, so no mismatch
warning is surfaced either. -/
theorem c3_counterexample :
    (∀ je ∈ ([] : List Accounting.JournalEntry), Accounting.balancedEntry je) ∧
    Accounting.totalDebits
      [{ id := "A", name := "A", group := "Assets", openingBalance := 1 / 200,
         openingBalanceType := .credit }] [] = 0 ∧
    Accounting.totalCredits
      [{ id := "A", name := "A", group := "Assets", openingBalance := 1 / 200,
         openingBalanceType := .credit }] [] = 1 / 200 ∧
    ¬ Accounting.totalDebits
      [{ id := "A", name := "A", group := "Assets", openingBalance := 1 / 200,
         openingBalanceType := .credit }] [] =
      Accounting.totalCredits
      [{ id := "A", name := "A", group := "Assets", openingBalance := 1 / 200,
         openingBalanceType := .credit }] [] ∧
    ¬ Accounting.trialBalanceWarningShown
      [{ id := "A", name := "A", group := "Assets", openingBalance := 1 / 200,
         openingBalanceType := .credit }] [] := by
  have hd : Accounting.totalDebits
      [{ id := "A", name := "A", group := "Assets", openingBalance := 1 / 200,
         openingBalanceType := .credit }] [] = 0 := by
    norm_num [Accounting.totalDebits, Accounting.sortedBalances,
      Accounting.trialBalances, Accounting.insertSlot, Accounting.accountOpeningSigned,
      List.insertionSort, List.orderedInsert, sumBy, List.foldl]
  have hc : Accounting.totalCredits
      [{ id := "A", name := "A", group := "Assets", openingBalance := 1 / 200,
         openingBalanceType := .credit }] [] = 1 / 200 := by
    norm_num [Accounting.totalCredits, Accounting.sortedBalances,
      Accounting.trialBalances, Accounting.insertSlot, Accounting.accountOpeningSigned,
      List.insertionSort, List.orderedInsert, sumBy, List.foldl]
  refine ⟨fun je h => absurd h (List.not_mem_nil je), hd, hc, ?_, ?_⟩
  · rw [hd, hc]
    norm_num
  · unfold Accounting.trialBalanceWarningShown
    rw [hd, hc]
    rw [show (0 : ℚ) - 1 / 200 = -(1 / 200) from by ring, abs_neg,
      abs_of_nonneg (by norm_num)]
    norm_num

/-- C3 (amended): for a ledger whose account ids are unique, whose lines all
reference stored accounts, whose vouchers are balanced, and whose fixed
per-account opening balances cancel out (signed sum zero), the trial balance
satisfies totalDebits = totalCredits; a difference is surfaced by the report
exactly when it exceeds the 0.01 display threshold (so a smaller non-zero
difference, or one caused by opening balances or unresolved lines alone, is
not reported). -/
theorem c3_trial_balance :
    ∀ (accounts : List Accounting.Account) (js : List Accounting.JournalEntry),
      ((accounts.map (fun a => a.id)).Nodup →
        sumBy accounts Accounting.accountOpeningSigned = 0 →
        (∀ je ∈ js, Accounting.balancedEntry je) →
        (∀ je ∈ js, ∀ t ∈ je.transactions,
          t.accountId ∈ accounts.map (fun a => a.id)) →
        Accounting.totalDebits accounts js = Accounting.totalCredits accounts js) ∧
      (Accounting.trialBalanceWarningShown accounts js ↔
        1 / 100 < |Accounting.totalDebits accounts js -
          Accounting.totalCredits accounts js|) := by
  intro accounts js
  refine ⟨?_, Iff.rfl⟩
  intro hnd hopen hbal hres
  have hkeys : (accounts.map (fun acc => (acc.id,
      ({ name := acc.name, group := acc.group,
         balance := Accounting.accountOpeningSigned acc } : Accounting.BalanceSlot)))).map
      Prod.fst = accounts.map (fun a => a.id) := by
    rw [List.map_map]
    rfl
  have hperm := List.perm_insertionSort
    (fun a b : Accounting.BalanceSlot => a.name ≤ b.name)
    ((Accounting.trialBalances accounts js).map Prod.snd)
  have hsum : ∀ f : Accounting.BalanceSlot → ℚ,
      sumBy (Accounting.sortedBalances accounts js) f =
      sumBy ((Accounting.trialBalances accounts js).map Prod.snd) f :=
    fun f => sumBy_perm hperm f
  have hM : sumBy (Accounting.trialBalances accounts js) (fun p => p.2.balance) = 0 := by
    rw [Accounting.trialBalances_eq js hnd]
    rw [Accounting.entries_fold_sum js _ (by rw [hkeys]; exact hnd) ?_]
    · rw [sumBy_map]
      have h1 : sumBy accounts (fun x => Accounting.accountOpeningSigned x) = 0 := hopen
      have h2 : sumBy js (fun je => sumBy je.transactions Accounting.lineSigned) = 0 := by
        apply sumBy_eq_zero
        intro je hje
        rw [Accounting.sumBy_lineSigned]
        have := hbal je hje
        unfold Accounting.balancedEntry at this
        rw [this]
        ring
      rw [h2]
      show sumBy accounts (fun x => Accounting.accountOpeningSigned x) + 0 = 0
      rw [h1]
      ring
    · intro je hje t ht
      rw [hkeys]
      exact hres je hje t ht
  have hdiff : Accounting.totalDebits accounts js -
      Accounting.totalCredits accounts js = 0 := by
    unfold Accounting.totalDebits Accounting.totalCredits
    rw [hsum, hsum, Accounting.sumBy_pos_sub_neg, sumBy_map, hM]
  linarith [hdiff]

/-- C3 witness: two accounts with opposite fixed opening balances (100 debit
and 100 credit) and one balanced voucher moving 30 between them yield equal
trial-balance totals, and the mismatch banner shows exactly when the totals
differ by more than 0.01. -/
theorem c3_trial_balance_witness :
    Accounting.totalDebits
      [{ id := "A", name := "A", group := "Assets", openingBalance := 100,
         openingBalanceType := .debit },
       { id := "B", name := "B", group := "Liabilities", openingBalance := 100,
         openingBalanceType := .credit }]
      [{ id := "j1", date := 1, voucherNumber := 1, narration := "move",
         transactions := [{ accountId := "A", type := .debit, amount := 30 },
                          { accountId := "B", type := .credit, amount := 30 }],
         relatedFeePaymentId := none }] =
    Accounting.totalCredits
      [{ id := "A", name := "A", group := "Assets", openingBalance := 100,
         openingBalanceType := .debit },
       { id := "B", name := "B", group := "Liabilities", openingBalance := 100,
         openingBalanceType := .credit }]
      [{ id := "j1", date := 1, voucherNumber := 1, narration := "move",
         transactions := [{ accountId := "A", type := .debit, amount := 30 },
                          { accountId := "B", type := .credit, amount := 30 }],
         relatedFeePaymentId := none }] := by
  apply (c3_trial_balance _ _).1
  · decide
  · norm_num [sumBy, List.foldl, Accounting.accountOpeningSigned]
  · intro je hje
    rcases List.mem_singleton.mp hje with rfl
    unfold Accounting.balancedEntry
    norm_num [Accounting.storedDebitTotal, Accounting.storedCreditTotal,
      sumBy, List.foldl, List.filter]
  · intro je hje t ht
    rcases List.mem_singleton.mp hje with rfl
    rcases List.mem_cons.mp ht with rfl | ht2
    · decide
    · rcases List.mem_singleton.mp ht2 with rfl
      decide

/-- C4: the concrete ledger-report scenario.  Account A has fixed opening
balance 1000 credit; voucher 1 (day 5, standing for 2024-01-05) debits A 500
against Cash, voucher 2 (day 10, standing for 2024-01-10) credits A 200 from
Cash.  Reported over days 1..31 (2024-01-01..2024-01-31), the report holds
the opening row followed by the two posting rows with running balances -500
and -700 in the debit-positive internal convention, rendered as 500 Cr and
700 Cr — that is, the spec scenario's movement -500 with balance 500 credit
and movement +200 with balance 700 credit. -/
theorem c4_ledger_report_scenario :
    Accounting.ledgerReportData
      [{ id := "v1", date := 5, voucherNumber := 1, narration := "n1",
         transactions := [{ accountId := "A", type := .debit, amount := 500 },
                          { accountId := "CASH", type := .credit, amount := 500 }],
         relatedFeePaymentId := none },
       { id := "v2", date := 10, voucherNumber := 2, narration := "n2",
         transactions := [{ accountId := "CASH", type := .debit, amount := 200 },
                          { accountId := "A", type := .credit, amount := 200 }],
         relatedFeePaymentId := none }]
      { id := "A", name := "A", group := "Assets", openingBalance := 1000,
        openingBalanceType := .credit } 1 31 =
      ([{ date := none, narration := "Opening Balance", debit := 0, credit := 1000,
          balance := -1000 },
        { date := some 5, narration := "n1", debit := 500, credit := 0,
          balance := -500 },
        { date := some 10, narration := "n2", debit := 0, credit := 200,
          balance := -700 }], -700) ∧
    Accounting.renderBalance (-500) = (500, .credit) ∧
    Accounting.renderBalance (-700) = (700, .credit) := by
  refine ⟨?_, ?_, ?_⟩
  · simp +decide [Accounting.ledgerReportData, Accounting.ledgerEntriesInRange,
      Accounting.ledgerRowsOfEntry, Accounting.accountOpeningSigned,
      Accounting.lineSigned, List.insertionSort, List.orderedInsert,
      List.filter, List.foldl]
    norm_num
  · norm_num [Accounting.renderBalance, abs_of_nonpos]
  · norm_num [Accounting.renderBalance, abs_of_nonpos]

namespace DayBook


theorem signedOf_render (r : ℚ) :
    signedOf |r| (if 0 ≤ r then BalanceType.credit else BalanceType.debit) = r := by
  by_cases h : 0 ≤ r
  · rw [if_pos h]
    unfold signedOf
    exact abs_of_nonneg h
  · rw [if_neg h]
    unfold signedOf
    push_neg at h
    rw [abs_of_neg h]
    ring

theorem replay_zero (s : State) (cur : ℕ) (r : ℚ) : replay s cur 0 r = r := rfl


theorem replay_succ_step (s : State) (cur n : ℕ) (r : ℚ) :
    replay s cur (n + 1) r = replay s (cur + 1) n
      (match s.openingBalances.find? (fun ob => ob.id = cur + 1) with
       | some ob => signedOf ob.amount ob.type
       | none => r + netForDay s cur) := rfl

theorem replay_snoc (s : State) :
    ∀ (n cur : ℕ) (r : ℚ),
      s.openingBalances.find? (fun ob => ob.id = cur + n + 1) = none →
      replay s cur (n + 1) r = replay s cur n r + netForDay s (cur + n) := by
  intro n
  induction n with
  | zero =>
      intro cur r hnone
      have h1 : cur + 0 + 1 = cur + 1 := by omega
      rw [h1] at hnone
      rw [replay_succ_step, replay_zero, replay_zero, hnone]
      show r + netForDay s cur = r + netForDay s (cur + 0)
      rw [Nat.add_zero]
  | succ n ih =>
      intro cur r hnone
      rw [replay_succ_step s cur (n + 1) r, replay_succ_step s cur n r]
      have harg : cur + 1 + n + 1 = cur + (n + 1) + 1 := by omega
      have hres := ih (cur + 1)
        (match s.openingBalances.find? (fun ob => ob.id = cur + 1) with
         | some ob => signedOf ob.amount ob.type
         | none => r + netForDay s cur)
        (by rw [harg]; exact hnone)
      rw [hres]
      have hidx : cur + 1 + n = cur + (n + 1) := by omega
      rw [hidx]

theorem mem_txnDates_fp {s : State} {p : FeePayment} (hp : p ∈ s.feePayments) :
    p.paymentDate ∈ transactionDates s := by
  simp only [transactionDates, List.mem_append, List.mem_map]
  exact Or.inl (Or.inl ⟨p, hp, rfl⟩)

theorem mem_txnDates_ie {s : State} {p : IncomeEntry} (hp : p ∈ s.incomeEntries) :
    p.date ∈ transactionDates s := by
  simp only [transactionDates, List.mem_append, List.mem_map]
  exact Or.inl (Or.inr ⟨p, hp, rfl⟩)

theorem mem_txnDates_ex {s : State} {p : Expenditure} (hp : p ∈ s.expenditures) :
    p.date ∈ transactionDates s := by
  simp only [transactionDates, List.mem_append, List.mem_map]
  exact Or.inr ⟨p, hp, rfl⟩

theorem netForDay_of_no_transactions (s : State) (d : ℕ)
    (h : ∀ x ∈ transactionDates s, ¬ x = d) : netForDay s d = 0 := by
  have hfp : s.feePayments.filter (fun p => p.paymentDate = d) = [] := by
    apply List.filter_eq_nil_iff.mpr
    intro p hp
    simp only [decide_eq_true_eq]
    exact h p.paymentDate (mem_txnDates_fp hp)
  have hie : s.incomeEntries.filter (fun i => i.date = d) = [] := by
    apply List.filter_eq_nil_iff.mpr
    intro p hp
    simp only [decide_eq_true_eq]
    exact h p.date (mem_txnDates_ie hp)
  have hex : s.expenditures.filter (fun e => e.date = d) = [] := by
    apply List.filter_eq_nil_iff.mpr
    intro p hp
    simp only [decide_eq_true_eq]
    exact h p.date (mem_txnDates_ex hp)
  unfold netForDay incomeForDay feeIncomeForDay otherIncomeForDay expenditureForDay
  rw [hfp, hie, hex]
  norm_num [sumBy_nil]

end DayBook

namespace DayBook

theorem sorted_dedup_head_min {L : List ℕ} {d0 : ℕ} {rest : List ℕ}
    (h : L.dedup.insertionSort (fun a b => a ≤ b) = d0 :: rest) :
    d0 ∈ L ∧ ∀ x ∈ L, d0 ≤ x := by
  have hperm : (L.dedup.insertionSort (fun a b => a ≤ b)).Perm L.dedup :=
    List.perm_insertionSort _ _
  have hsorted : (L.dedup.insertionSort (fun a b => a ≤ b)).Sorted (fun a b => a ≤ b) :=
    List.sorted_insertionSort _ _
  rw [h] at hperm hsorted
  constructor
  · exact List.mem_dedup.mp (hperm.mem_iff.mp (List.mem_cons_self d0 rest))
  · intro x hx
    have hxs : x ∈ d0 :: rest := hperm.mem_iff.mpr (List.mem_dedup.mpr hx)
    rcases List.mem_cons.mp hxs with rfl | hxr
    · exact le_refl x
    · exact List.rel_of_sorted_cons hsorted x hxr

theorem sorted_dedup_eq_nil_iff {L : List ℕ} :
    L.dedup.insertionSort (fun a b => a ≤ b) = [] ↔ L = [] := by
  constructor
  · intro h
    have hperm := List.perm_insertionSort (fun a b : ℕ => a ≤ b) L.dedup
    rw [h] at hperm
    have : L.dedup = [] := hperm.symm.eq_nil
    exact (List.dedup_eq_nil L).mp this
  · intro h
    rw [h]
    rfl

theorem find_desc_some {l : List OpeningBalance} {t : ℕ} {x : OpeningBalance}
    (hs : l.Pairwise (fun a b => b.id ≤ a.id))
    (hx : l.find? (fun ob => ob.id < t) = some x) :
    x ∈ l ∧ x.id < t ∧ ∀ y ∈ l, y.id < t → y.id ≤ x.id := by
  induction l with
  | nil => cases hx
  | cons a as ih =>
      rw [List.pairwise_cons] at hs
      by_cases ha : a.id < t
      · rw [List.find?_cons_of_pos _ (by simpa using ha)] at hx
        cases hx
        refine ⟨List.mem_cons_self x as, ha, ?_⟩
        intro y hy _
        rcases List.mem_cons.mp hy with rfl | hmem
        · exact le_refl y.id
        · exact hs.1 y hmem
      · rw [List.find?_cons_of_neg _ (by simpa using ha)] at hx
        obtain ⟨hmem, hlt, hmax⟩ := ih hs.2 hx
        refine ⟨List.mem_cons_of_mem a hmem, hlt, ?_⟩
        intro y hy hyt
        rcases List.mem_cons.mp hy with rfl | hmem2
        · exact absurd hyt ha
        · exact hmax y hmem2 hyt

theorem argmax_eq_of_max {l : List OpeningBalance} {x : OpeningBalance}
    (hinj : ∀ a ∈ l, ∀ b ∈ l, a.id = b.id → a = b)
    (hx : x ∈ l) (hmax : ∀ y ∈ l, y.id ≤ x.id) :
    l.argmax (fun ob => ob.id) = some x := by
  cases hm : l.argmax (fun ob => ob.id) with
  | none =>
      rw [List.argmax_eq_none] at hm
      rw [hm] at hx
      cases hx
  | some m =>
      have hmm : m ∈ l := List.argmax_mem hm
      have h1 : x.id ≤ m.id := List.le_of_mem_argmax hx hm
      have h2 : m.id ≤ x.id := hmax m hmm
      have : m = x := hinj m hmm x hx (le_antisymm h2 h1)
      rw [this]

theorem nodup_inj {l : List OpeningBalance}
    (hnd : (l.map (fun ob => ob.id)).Nodup) :
    ∀ a ∈ l, ∀ b ∈ l, a.id = b.id → a = b := by
  intro a ha b hb hab
  exact List.inj_on_of_nodup_map hnd ha hb hab

end DayBook

namespace DayBook

theorem findStartingPoint_eq_specAnchor (s : State) (target : ℕ)
    (hnd : (s.openingBalances.map (fun ob => ob.id)).Nodup) :
    findStartingPoint s target = specAnchor s target := by
  unfold findStartingPoint specAnchor
  have hperm : (s.openingBalances.insertionSort (fun a b => b.id ≤ a.id)).Perm
      s.openingBalances := List.perm_insertionSort _ _
  have hpair : (s.openingBalances.insertionSort (fun a b => b.id ≤ a.id)).Pairwise
      (fun a b => b.id ≤ a.id) := List.sorted_insertionSort _ _
  cases hfind : (s.openingBalances.insertionSort (fun a b => b.id ≤ a.id)).find?
      (fun ob => ob.id < target) with
  | none =>
      have hnone := List.find?_eq_none.mp hfind
      have hflt : s.openingBalances.filter (fun ob => ob.id < target) = [] := by
        apply List.filter_eq_nil_iff.mpr
        intro ob hob
        simpa using hnone ob (hperm.mem_iff.mpr hob)
      rw [hflt, List.argmax_nil]
  | some x =>
      obtain ⟨hmem, hlt, hmax⟩ := find_desc_some hpair hfind
      have hsub : List.Sublist
          ((s.openingBalances.filter (fun ob => ob.id < target)).map
            (fun ob => ob.id))
          (s.openingBalances.map (fun ob => ob.id)) :=
        List.Sublist.map _ (List.filter_sublist s.openingBalances)
      have hnd2 := hnd.sublist hsub
      have hxf : x ∈ s.openingBalances.filter (fun ob => ob.id < target) :=
        List.mem_filter.mpr ⟨hperm.mem_iff.mp hmem, by simpa using hlt⟩
      have hmf : ∀ y ∈ s.openingBalances.filter (fun ob => ob.id < target),
          y.id ≤ x.id := by
        intro y hy
        have hy2 := List.mem_filter.mp hy
        exact hmax y (hperm.mem_iff.mpr hy2.1) (by simpa using hy2.2)
      rw [argmax_eq_of_max (nodup_inj hnd2) hxf hmf]

end DayBook

namespace DayBook

theorem allDates_eq_nil_parts {s : State} (h : allDates s = []) :
    s.openingBalances = [] ∧ transactionDates s = [] := by
  unfold allDates at h
  have hL := sorted_dedup_eq_nil_iff.mp h
  simp only [List.append_eq_nil, List.map_eq_nil_iff] at hL
  refine ⟨hL.1.1.1, ?_⟩
  unfold transactionDates
  rw [hL.1.1.2, hL.1.2, hL.2]
  rfl

theorem mem_allDates {s : State} {x : ℕ} :
    x ∈ allDates s ↔
      x ∈ s.openingBalances.map (fun ob => ob.id) ∨ x ∈ transactionDates s := by
  unfold allDates transactionDates
  rw [(List.perm_insertionSort _ _).mem_iff, List.mem_dedup]
  simp [List.mem_append, or_assoc]

theorem allDates_head_min {s : State} {d0 : ℕ} {rest : List ℕ}
    (h : allDates s = d0 :: rest) :
    d0 ∈ allDates s ∧ ∀ x, (x ∈ s.openingBalances.map (fun ob => ob.id) ∨
      x ∈ transactionDates s) → d0 ≤ x := by
  unfold allDates at h
  obtain ⟨hmem, hmin⟩ := sorted_dedup_head_min h
  constructor
  · unfold allDates
    rw [h]
    exact List.mem_cons_self d0 rest
  · intro x hx
    apply hmin
    simp only [List.mem_append]
    rcases hx with h1 | h2
    · exact Or.inl (Or.inl (Or.inl h1))
    · unfold transactionDates at h2
      rcases List.mem_append.mp h2 with h3 | h4
      · rcases List.mem_append.mp h3 with h5 | h6
        · exact Or.inl (Or.inl (Or.inr h5))
        · exact Or.inl (Or.inr h6)
      · exact Or.inr h4

theorem earliest_some_min {s : State} {t0 : ℕ}
    (h : earliestTransactionDate s = some t0) :
    t0 ∈ transactionDates s ∧ ∀ x ∈ transactionDates s, t0 ≤ x := by
  unfold earliestTransactionDate at h
  cases hs : (transactionDates s).dedup.insertionSort (fun a b => a ≤ b) with
  | nil => rw [hs] at h; cases h
  | cons a l =>
      rw [hs] at h
      cases h
      exact sorted_dedup_head_min hs

theorem earliest_none_nil {s : State}
    (h : earliestTransactionDate s = none) : transactionDates s = [] := by
  unfold earliestTransactionDate at h
  cases hs : (transactionDates s).dedup.insertionSort (fun a b => a ≤ b) with
  | nil => exact sorted_dedup_eq_nil_iff.mp hs
  | cons a l => rw [hs] at h; cases h

theorem earliest_eq_some_of_mem_min {s : State} {t0 : ℕ}
    (hmem : t0 ∈ transactionDates s)
    (hmin : ∀ x ∈ transactionDates s, t0 ≤ x) :
    earliestTransactionDate s = some t0 := by
  cases h : earliestTransactionDate s with
  | none =>
      rw [earliest_none_nil h] at hmem
      cases hmem
  | some t1 =>
      obtain ⟨h1, h2⟩ := earliest_some_min h
      have := le_antisymm (h2 t0 hmem) (hmin t1 h1)
      rw [this]

theorem specAnchor_none_no_override {s : State} {target : ℕ}
    (h : specAnchor s target = none) :
    ∀ ob ∈ s.openingBalances, ¬ ob.id < target := by
  unfold specAnchor at h
  rw [List.argmax_eq_none] at h
  intro ob hob hlt
  have : ob ∈ s.openingBalances.filter (fun ob => ob.id < target) :=
    List.mem_filter.mpr ⟨hob, by simpa using hlt⟩
  rw [h] at this
  cases this

end DayBook

namespace DayBook

theorem openingBalance_code_eq_spec (s : State) (target : ℕ)
    (hnd : (s.openingBalances.map (fun ob => ob.id)).Nodup) :
    calculateOpeningBalanceForDate s target = openingBalanceSpec s target := by
  unfold calculateOpeningBalanceForDate openingBalanceSpec
  cases hov : s.openingBalances.find? (fun ob => ob.id = target) with
  | some ob => rfl
  | none =>
      cases hall : allDates s with
      | nil =>
          obtain ⟨hobs, htxn⟩ := allDates_eq_nil_parts hall
          have hanch : specAnchor s target = none := by
            unfold specAnchor
            rw [hobs]
            rfl
          have hearl : earliestTransactionDate s = none := by
            unfold earliestTransactionDate
            rw [htxn]
            rfl
          simp only [hanch, hearl, Nat.sub_self, replay_zero]
          norm_num
      | cons d0 rest =>
          by_cases htlt : target < d0
          · have hanch : specAnchor s target = none := by
              unfold specAnchor
              rw [List.argmax_eq_none]
              apply List.filter_eq_nil_iff.mpr
              intro ob hob
              simp only [decide_eq_true_eq]
              intro hlt
              have hd0 := (allDates_head_min hall).2 ob.id
                (Or.inl (List.mem_map_of_mem _ hob))
              omega
            cases hearl : earliestTransactionDate s with
            | none =>
                simp only [hanch, hearl, if_pos htlt, Nat.sub_self, replay_zero]
                norm_num
            | some t0 =>
                have ht0 := (earliest_some_min hearl).1
                have hd0 := (allDates_head_min hall).2 t0 (Or.inr ht0)
                have hz : target - t0 = 0 := by omega
                simp only [hanch, hearl, if_pos htlt, hz, replay_zero]
                norm_num
          · rw [findStartingPoint_eq_specAnchor s target hnd]
            cases hanch : specAnchor s target with
            | some a => simp only [hanch, if_neg htlt]
            | none =>
                have hno := specAnchor_none_no_override hanch
                have hd0mem : d0 ∈ allDates s := (allDates_head_min hall).1
                have hd0txn : d0 ∈ transactionDates s := by
                  rcases mem_allDates.mp hd0mem with h1 | h2
                  · rcases List.mem_map.mp h1 with ⟨ob, hob, hid⟩
                    exfalso
                    have h3 := hno ob hob
                    have h4 : ob.id = target := by omega
                    have h5 := List.find?_eq_none.mp hov ob hob
                    simp [h4] at h5
                  · exact h2
                have hmin : ∀ x ∈ transactionDates s, d0 ≤ x :=
                  fun x hx => (allDates_head_min hall).2 x (Or.inr hx)
                simp only [hanch, earliest_eq_some_of_mem_min hd0txn hmin,
                  if_neg htlt]

end DayBook

/-- C1: the opening-balance derivation returns a stored override for the
target date verbatim, and in every case agrees with the specification's
derivation: signed running balance seeded from the nearest override strictly
before the target (zero at the earliest known date otherwise), replayed day
by day with override resets, and rendered as (absolute value, credit when
non-negative else debit).  Unique override dates (the invariant the override
store maintains) are assumed. -/
theorem c1_opening_balance_derivation :
    ∀ (s : DayBook.State) (target : ℕ),
      (s.openingBalances.map (fun ob => ob.id)).Nodup →
      ((∀ ob, s.openingBalances.find? (fun ob2 => ob2.id = target) = some ob →
          DayBook.calculateOpeningBalanceForDate s target = (ob.amount, ob.type)) ∧
        DayBook.calculateOpeningBalanceForDate s target =
          DayBook.openingBalanceSpec s target) := by
  intro s target hnd
  constructor
  · intro ob hob
    unfold DayBook.calculateOpeningBalanceForDate
    rw [hob]
  · exact DayBook.openingBalance_code_eq_spec s target hnd

/-- C1 witness: the spec's day-book anchor scenario — override (1000, credit)
on day 1, income 300 on day 2, expenditure 100 on day 3 — where the opening
balance computed for day 4 is (1200, credit), equal to the spec derivation,
and the override day itself is returned verbatim. -/
theorem c1_opening_balance_derivation_witness :
    DayBook.calculateOpeningBalanceForDate
      { openingBalances := [{ id := 1, amount := 1000, type := .credit }],
        feePayments := [],
        incomeEntries := [{ id := "i1", date := 2, accountId := "a", amount := 300,
                            remarks := "" }],
        expenditures := [{ id := "e1", date := 3, accountId := "a", amount := 100,
                           remarks := "" }] } 4 =
      DayBook.openingBalanceSpec
      { openingBalances := [{ id := 1, amount := 1000, type := .credit }],
        feePayments := [],
        incomeEntries := [{ id := "i1", date := 2, accountId := "a", amount := 300,
                            remarks := "" }],
        expenditures := [{ id := "e1", date := 3, accountId := "a", amount := 100,
                           remarks := "" }] } 4 ∧
    DayBook.calculateOpeningBalanceForDate
      { openingBalances := [{ id := 1, amount := 1000, type := .credit }],
        feePayments := [],
        incomeEntries := [{ id := "i1", date := 2, accountId := "a", amount := 300,
                            remarks := "" }],
        expenditures := [{ id := "e1", date := 3, accountId := "a", amount := 100,
                           remarks := "" }] } 4 = (1200, .credit) ∧
    DayBook.calculateOpeningBalanceForDate
      { openingBalances := [{ id := 1, amount := 1000, type := .credit }],
        feePayments := [],
        incomeEntries := [{ id := "i1", date := 2, accountId := "a", amount := 300,
                            remarks := "" }],
        expenditures := [{ id := "e1", date := 3, accountId := "a", amount := 100,
                           remarks := "" }] } 1 = (1000, .credit) := by
  refine ⟨(c1_opening_balance_derivation _ 4 (by decide)).2, ?_, ?_⟩
  · norm_num [DayBook.calculateOpeningBalanceForDate, DayBook.allDates,
      DayBook.findStartingPoint, DayBook.replay, DayBook.netForDay,
      DayBook.incomeForDay, DayBook.feeIncomeForDay, DayBook.otherIncomeForDay,
      DayBook.expenditureForDay, signedOf, sumBy, List.foldl,
      List.filter, List.find?, List.dedup, List.insertionSort, List.orderedInsert,
      List.pwFilter]
  · exact (c1_opening_balance_derivation _ 1 (by decide)).1
      { id := 1, amount := 1000, type := .credit } (by decide)

namespace DayBook

theorem nodup_filter_ids {s : State}
    (hnd : (s.openingBalances.map (fun ob => ob.id)).Nodup)
    (p : OpeningBalance → Bool) :
    ((s.openingBalances.filter p).map (fun ob => ob.id)).Nodup :=
  hnd.sublist (List.Sublist.map _ (List.filter_sublist s.openingBalances))

theorem spec_signed_override {s : State} {t : ℕ} {ob : OpeningBalance}
    (hov : s.openingBalances.find? (fun ob2 => ob2.id = t) = some ob) :
    signedOf (openingBalanceSpec s t).1 (openingBalanceSpec s t).2 =
      signedOf ob.amount ob.type := by
  unfold openingBalanceSpec
  simp only [hov]

theorem spec_signed_anchor {s : State} {t : ℕ} {a : OpeningBalance}
    (hov : s.openingBalances.find? (fun ob => ob.id = t) = none)
    (hanch : specAnchor s t = some a) :
    signedOf (openingBalanceSpec s t).1 (openingBalanceSpec s t).2 =
      replay s a.id (t - a.id) (signedOf a.amount a.type) := by
  unfold openingBalanceSpec
  simp only [hov, hanch]
  exact signedOf_render _

theorem spec_signed_noanchor_some {s : State} {t t0 : ℕ}
    (hov : s.openingBalances.find? (fun ob => ob.id = t) = none)
    (hanch : specAnchor s t = none)
    (hearl : earliestTransactionDate s = some t0) :
    signedOf (openingBalanceSpec s t).1 (openingBalanceSpec s t).2 =
      replay s t0 (t - t0) 0 := by
  unfold openingBalanceSpec
  simp only [hov, hanch, hearl]
  exact signedOf_render _

theorem spec_signed_noanchor_none {s : State} {t : ℕ}
    (hov : s.openingBalances.find? (fun ob => ob.id = t) = none)
    (hanch : specAnchor s t = none)
    (hearl : earliestTransactionDate s = none) :
    signedOf (openingBalanceSpec s t).1 (openingBalanceSpec s t).2 = 0 := by
  unfold openingBalanceSpec
  simp only [hov, hanch, hearl, Nat.sub_self, replay_zero]
  norm_num [signedOf]

theorem spec_signed_succ (s : State) (d : ℕ)
    (hnd : (s.openingBalances.map (fun ob => ob.id)).Nodup)
    (hnone : s.openingBalances.find? (fun ob => ob.id = d + 1) = none) :
    signedOf (openingBalanceSpec s (d + 1)).1 (openingBalanceSpec s (d + 1)).2 =
      signedOf (openingBalanceSpec s d).1 (openingBalanceSpec s d).2 +
        netForDay s d := by
  cases hanch : specAnchor s (d + 1) with
  | some a =>
      have hamem := List.argmax_mem hanch
      obtain ⟨haobs, haltb⟩ := List.mem_filter.mp hamem
      have halt : a.id < d + 1 := by simpa using haltb
      have hmax : ∀ y ∈ s.openingBalances, y.id < d + 1 → y.id ≤ a.id := by
        intro y hy hlt
        exact List.le_of_mem_argmax
          (List.mem_filter.mpr ⟨hy, by simpa using hlt⟩) hanch
      rw [spec_signed_anchor hnone hanch]
      by_cases hid : a.id = d
      · have hov_d : s.openingBalances.find? (fun ob => ob.id = d) = some a := by
          cases hfd : s.openingBalances.find? (fun ob => ob.id = d) with
          | none =>
              exfalso
              have := List.find?_eq_none.mp hfd a haobs
              simp [hid] at this
          | some b =>
              have hb : b.id = d := by simpa using List.find?_some hfd
              have hbmem := List.mem_of_find?_eq_some hfd
              rw [nodup_inj hnd b hbmem a haobs (by rw [hb, hid])]
        rw [spec_signed_override hov_d]
        rw [hid]
        have h1 : d + 1 - d = 0 + 1 := by omega
        rw [h1, replay_snoc s 0 d _ (by rw [Nat.add_zero]; exact hnone),
          replay_zero, Nat.add_zero]
      · have hlt2 : a.id < d := by omega
        have hov_d : s.openingBalances.find? (fun ob => ob.id = d) = none := by
          cases hfd : s.openingBalances.find? (fun ob => ob.id = d) with
          | none => rfl
          | some b =>
              exfalso
              have hb : b.id = d := by simpa using List.find?_some hfd
              have hbmem := List.mem_of_find?_eq_some hfd
              have := hmax b hbmem (by omega)
              omega
        have hancd : specAnchor s d = some a := by
          apply argmax_eq_of_max
            (nodup_inj (nodup_filter_ids hnd _))
            (List.mem_filter.mpr ⟨haobs, by simpa using hlt2⟩)
          intro y hy
          obtain ⟨hy1, hy2⟩ := List.mem_filter.mp hy
          exact hmax y hy1 (by simp at hy2; omega)
        rw [spec_signed_anchor hov_d hancd]
        have h1 : d + 1 - a.id = (d - a.id) + 1 := by omega
        have h2 : a.id + (d - a.id) = d := by omega
        rw [h1, replay_snoc s (d - a.id) a.id _ (by rw [h2]; exact hnone), h2]
  | none =>
      have hno := specAnchor_none_no_override hanch
      have hov_d : s.openingBalances.find? (fun ob => ob.id = d) = none := by
        cases hfd : s.openingBalances.find? (fun ob => ob.id = d) with
        | none => rfl
        | some b =>
            exfalso
            have hb : b.id = d := by simpa using List.find?_some hfd
            have hbmem := List.mem_of_find?_eq_some hfd
            exact hno b hbmem (by omega)
      have hancd : specAnchor s d = none := by
        unfold specAnchor
        rw [List.argmax_eq_none]
        apply List.filter_eq_nil_iff.mpr
        intro ob hob
        simp only [decide_eq_true_eq]
        intro hlt
        exact hno ob hob (by omega)
      cases hearl : earliestTransactionDate s with
      | none =>
          have htxn := earliest_none_nil hearl
          have hnet : netForDay s d = 0 := by
            apply netForDay_of_no_transactions
            rw [htxn]
            intro x hx
            cases hx
          rw [spec_signed_noanchor_none hnone hanch hearl,
            spec_signed_noanchor_none hov_d hancd hearl, hnet]
          ring
      | some t0 =>
          obtain ⟨ht0mem, ht0min⟩ := earliest_some_min hearl
          rw [spec_signed_noanchor_some hnone hanch hearl,
            spec_signed_noanchor_some hov_d hancd hearl]
          by_cases hto : t0 ≤ d
          · have h1 : d + 1 - t0 = (d - t0) + 1 := by omega
            have h2 : t0 + (d - t0) = d := by omega
            rw [h1, replay_snoc s (d - t0) t0 _ (by rw [h2]; exact hnone), h2]
          · have h1 : d + 1 - t0 = 0 := by omega
            have h2 : d - t0 = 0 := by omega
            have hnet : netForDay s d = 0 := by
              apply netForDay_of_no_transactions
              intro x hx hxd
              have := ht0min x hx
              omega
            rw [h1, h2, hnet]
            ring

end DayBook

/-- C5: the day book's closing balance is the signed opening balance of the
date plus the same-day fee-payment and income totals minus the same-day
expenditure total, and — when the following day has no stored override and
override dates are unique — that closing balance is exactly the signed
opening balance the engine derives for the following day.  Both sides are
pure functions of the current store contents, so the identity holds no
matter in what order entries were added, edited or deleted. -/
theorem c5_day_book_closing :
    ∀ (s : DayBook.State) (d : ℕ),
      DayBook.closingBalance s d = DayBook.signedOpeningBalance s d +
        (DayBook.feeIncomeForDay s d + DayBook.otherIncomeForDay s d) -
        DayBook.expenditureForDay s d ∧
      ((s.openingBalances.map (fun ob => ob.id)).Nodup →
        s.openingBalances.find? (fun ob => ob.id = d + 1) = none →
        DayBook.signedOpeningBalance s (d + 1) = DayBook.closingBalance s d) := by
  intro s d
  refine ⟨rfl, ?_⟩
  intro hnd hnone
  have hclose : DayBook.closingBalance s d =
      DayBook.signedOpeningBalance s d + DayBook.netForDay s d := by
    unfold DayBook.closingBalance DayBook.netForDay DayBook.incomeForDay
    ring
  rw [hclose]
  unfold DayBook.signedOpeningBalance
  rw [DayBook.openingBalance_code_eq_spec s (d + 1) hnd,
    DayBook.openingBalance_code_eq_spec s d hnd]
  exact DayBook.spec_signed_succ s d hnd hnone

/-- C5 witness: with an override (1000, credit) on day 1, income 300 on day 2
and expenditure 100 on day 3, the closing balance of day 3 is 1200 and equals
the signed opening balance derived for day 4 (which has no override). -/
theorem c5_day_book_closing_witness :
    DayBook.signedOpeningBalance
      { openingBalances := [{ id := 1, amount := 1000, type := .credit }],
        feePayments := [],
        incomeEntries := [{ id := "i1", date := 2, accountId := "a", amount := 300,
                            remarks := "" }],
        expenditures := [{ id := "e1", date := 3, accountId := "a", amount := 100,
                           remarks := "" }] } 4 =
      DayBook.closingBalance
      { openingBalances := [{ id := 1, amount := 1000, type := .credit }],
        feePayments := [],
        incomeEntries := [{ id := "i1", date := 2, accountId := "a", amount := 300,
                            remarks := "" }],
        expenditures := [{ id := "e1", date := 3, accountId := "a", amount := 100,
                           remarks := "" }] } 3 ∧
    DayBook.closingBalance
      { openingBalances := [{ id := 1, amount := 1000, type := .credit }],
        feePayments := [],
        incomeEntries := [{ id := "i1", date := 2, accountId := "a", amount := 300,
                            remarks := "" }],
        expenditures := [{ id := "e1", date := 3, accountId := "a", amount := 100,
                           remarks := "" }] } 3 = 1200 := by
  constructor
  · exact (c5_day_book_closing _ 3).2 (by decide) (by decide)
  · norm_num [DayBook.closingBalance, DayBook.signedOpeningBalance,
      DayBook.calculateOpeningBalanceForDate, DayBook.allDates,
      DayBook.findStartingPoint, DayBook.replay, DayBook.netForDay,
      DayBook.incomeForDay, DayBook.feeIncomeForDay, DayBook.otherIncomeForDay,
      DayBook.expenditureForDay, signedOf, sumBy, List.foldl,
      List.filter, List.find?, List.dedup, List.insertionSort, List.orderedInsert,
      List.pwFilter]
